import Mathlib

/-!
# IOUnitTest.TestMachine

A shallow embedding of `src/IOUnitTest/TestMachine.h` and `src/IOUnitTest/TestMachine.cpp`.

* `std::string` and `std::queue<char>` are lists of characters.
* `double` is `Stamp`: the two infinities, NaN, and the finite values (as rationals), with the
  IEEE comparison, which is false as soon as one side is NaN.
* Every region of code that runs with `Mutex` held is one function on `Engine`, the record of the
  member variables that `Mutex` guards.  A blocking `ConditionVariable.wait(guard, pred)` is the
  function that does nothing while `pred` is false.
* Undefined behaviour (`front()` of an empty queue, signed overflow of `ReadCount`),
  `std::terminate` and `std::system_error` are results of type `Fault`, which end an execution.
* `Process` and `OnProcessTermination` are pure virtual: the subject is a parameter (`Subject`).
* The system is a configuration (`Config`) of the engine, the subject thread and the one thread
  of the test code.  A step (`step`) runs the next region of one of the two threads; which
  thread, and what the clock reads, is the `Label`.  An execution (`run`) is a schedule of
  labels.  `RunInCLI` and the destructor are not part of the system.
-/

namespace IOUnitTest

/-- A `std::string`, and the content of a `std::queue<char>` (front first). -/
abbrev Str := List Char

/-- The classification `std::isspace` in the default "C" locale: space, `\t`, `\n`, `\v`, `\f`,
`\r`. -/
def isspace (c : Char) : Bool :=
  c.toNat = 32 || (9 ≤ c.toNat && c.toNat ≤ 13)

/-- A `double`. -/
inductive Stamp where
  | nan
  | negInf
  | fin (q : ℚ)
  | posInf
  deriving DecidableEq

namespace Stamp

/-- The comparison `x <= y` of two doubles. -/
def le : Stamp → Stamp → Bool
  | nan, _ => false
  | _, nan => false
  | negInf, _ => true
  | _, posInf => true
  | fin p, fin q => decide (p ≤ q)
  | fin _, negInf => false
  | posInf, fin _ => false
  | posInf, negInf => false

/-- The comparison `x >= y` of two doubles. -/
def ge (x y : Stamp) : Bool := le y x

end Stamp

/-- What stops an execution: undefined behaviour, or `std::terminate`. -/
inductive Fault where
  /-- `ReadQueue.front()` was evaluated on an empty queue. -/
  | frontOfEmptyQueue
  /-- `ReadCount++` at `INT_MAX`. -/
  | signedOverflow
  /-- `std::terminate` was called: a joinable `std::thread` was assigned to, or an exception
  left the thread function. -/
  | stdTerminate
  /-- `join()` was called on a thread that is not joinable, and threw `std::system_error`. -/
  | system_error
  deriving DecidableEq, Repr

namespace TestMachine

/-- The class `TestMachine::Line` (`TestMachine.h` 23-29). -/
structure Line where
  Timestamp : Stamp
  Content : Str
  deriving DecidableEq

/-- The class `TestMachine::TestResult` (`TestMachine.h` 31-37). -/
structure TestResult where
  Lines : List Line
  deriving DecidableEq

namespace TestResult

/-- `TestResult::GetAllLines` (`TestMachine.cpp` 28-34): the range-for loop over `Lines` with the
accumulator `result`. -/
def GetAllLines (self : TestResult) : Str :=
  self.Lines.foldl (fun result line => result ++ (line.Content ++ ['\n'])) []

/-- `TestResult::GetAllLinesDuring` (`TestMachine.cpp` 36-43). -/
def GetAllLinesDuring (self : TestResult) (DurationStart DurationEnd : Stamp) : Str :=
  self.Lines.foldl
    (fun result line =>
      if Stamp.ge line.Timestamp DurationStart && Stamp.le line.Timestamp DurationEnd then
        result ++ (line.Content ++ ['\n'])
      else result)
    []

end TestResult

/-- The argument type of `WriteLine`, `std::variant<int, long, float, double, char, std::string>`.
The numeric alternatives carry the text that `std::to_string` gives for them. -/
inductive Variant where
  | string (s : Str)
  | number (to_string : Str)

/-- `TestMachine::ToString` (`TestMachine.cpp` 272-287). -/
def ToString : Variant → Str
  | .string s => s
  | .number to_string => to_string

/-- The member variables of `TestMachine` that `Mutex` guards (`TestMachine.h` 62-86), and
`StartTime`, which `TimeMutex` guards.  Clock readings are in microseconds. -/
structure Engine where
  WaitingToRead : Bool
  ReadCount : Int
  IsProcessRunning : Bool
  ShouldTerminate : Bool
  IsTesting : Bool
  LastHint : Str
  ReadQueue : List Char
  WriteQueue : List Line
  StartTime : Int
  deriving DecidableEq

/-- The largest `int`. -/
def INT_MAX : Int := 2147483647

/-- The value of `ReadCount` after `ReadCount++`. -/
def increment (ReadCount : Int) : Except Fault Int :=
  if ReadCount < INT_MAX then .ok (ReadCount + 1) else .error .signedOverflow

/-- The loop `while (std::isspace(ReadQueue.front())) ReadQueue.pop();` (`TestMachine.cpp` 171-172
and 194-195), on the content of `ReadQueue`. -/
def skipSpaces : List Char → Except Fault (List Char)
  | [] => .error .frontOfEmptyQueue
  | front :: rest => if isspace front then skipSpaces rest else .ok (front :: rest)

/-- The loop of `ReadWord` that collects the token (`TestMachine.cpp` 198-206): the content of
`ReadQueue` and `result` before, `result` and the content of `ReadQueue` after. -/
def wordLoop : List Char → Str → Str × List Char
  | [], result => (result, [])
  | front :: rest, result =>
    if isspace front then (result, front :: rest) else wordLoop rest (result ++ [front])

/-- The loop of `ReadLine` that collects the line (`TestMachine.cpp` 238-246). -/
def lineLoop : List Char → Str → Str × List Char
  | [], result => (result, [])
  | front :: rest, result =>
    if front = '\n' then (result, rest) else lineLoop rest (result ++ [front])

/-- How a region of a read operation ends. -/
inductive ReadStep where
  /-- The operation returned `result`. -/
  | returned (result : Str)
  /-- The caller is in `ConditionVariable.wait` (`TestMachine.cpp` 182 and 225). -/
  | parked
  deriving DecidableEq

/-- How the wait of a read operation goes on. -/
inductive WakeStep where
  /-- The predicate of the wait is false. -/
  | blocked
  /-- The wait is over and `TerminateException` was thrown. -/
  | thrown
  /-- The wait is over and the operation goes on. -/
  | woken
  deriving DecidableEq

/-- The body of the wait-for-input block up to the wait (`TestMachine.cpp` 176-178 and
219-221). -/
def park (e : Engine) : Except Fault Engine := do
  let ReadCount ← increment e.ReadCount
  pure { e with WaitingToRead := true, ReadCount := ReadCount }

/-- The predicate of the wait of a read operation (`TestMachine.cpp` 183 and 226). -/
def readable (e : Engine) : Bool :=
  !e.ReadQueue.isEmpty || e.ShouldTerminate

/-- The wait of a read operation and what follows it up to the unlock or the throw
(`TestMachine.cpp` 182-190 and 225-233). -/
def wake (e : Engine) : Except Fault (Engine × WakeStep) :=
  if readable e then do
    let ReadCount ← increment e.ReadCount
    let e := { e with WaitingToRead := false, ReadCount := ReadCount }
    if e.ShouldTerminate then pure (e, .thrown) else pure (e, .woken)
  else pure (e, .blocked)

/-- The head of the loop `while (ReadQueue.empty())` of `ReadWord` (`TestMachine.cpp` 174), and
what follows until the lock is released: into the wait, or through the token loop to the
return. -/
def ReadWord.loop (e : Engine) : Except Fault (Engine × ReadStep) :=
  if e.ReadQueue.isEmpty then do
    let e ← park e
    pure (e, .parked)
  else
    let r := wordLoop e.ReadQueue []
    pure ({ e with ReadQueue := r.2 }, .returned r.1)

/-- `TestMachine::ReadWord` from its entry (`TestMachine.cpp` 165-178, 198-208). -/
def ReadWord (e : Engine) (Hint : Str) : Except Fault (Engine × ReadStep) := do
  let e := { e with LastHint := Hint }
  let q ← skipSpaces e.ReadQueue
  ReadWord.loop { e with ReadQueue := q }

/-- `TestMachine::ReadWord` after a wait that ended without a throw (`TestMachine.cpp` 192-196,
then the loop head 174). -/
def ReadWord.resume (e : Engine) : Except Fault (Engine × ReadStep) := do
  let q ← skipSpaces e.ReadQueue
  ReadWord.loop { e with ReadQueue := q }

/-- `TestMachine::ReadLine` after the wait-for-input block (`TestMachine.cpp` 235-248). -/
def ReadLine.resume (e : Engine) : Engine × Str :=
  let r := lineLoop e.ReadQueue []
  ({ e with ReadQueue := r.2 }, r.1)

/-- `TestMachine::ReadLine` from its entry (`TestMachine.cpp` 211-221, 238-248). -/
def ReadLine (e : Engine) (Hint : Str) : Except Fault (Engine × ReadStep) :=
  let e := { e with LastHint := Hint }
  if e.ReadQueue.isEmpty then do
    let e ← park e
    pure (e, .parked)
  else
    let r := ReadLine.resume e
    pure (r.1, .returned r.2)

/-- `TestMachine::GetTime` (`TestMachine.cpp` 341-346), when the clock reads `now`: the
microseconds since `StartTime`, divided by 1000000 (the quotient is taken exact). -/
def GetTime (e : Engine) (now : Int) : Stamp :=
  .fin (((now - e.StartTime : Int) : ℚ) / 1000000)

/-- `TestMachine::ResetStartTime` (`TestMachine.cpp` 335-339), when the clock reads `now`. -/
def ResetStartTime (e : Engine) (now : Int) : Engine :=
  { e with StartTime := now }

/-- `TestMachine::WriteLine` of one value (`TestMachine.cpp` 251-258). -/
def WriteLine (e : Engine) (now : Int) (Content : Variant) : Engine :=
  let line : Line := ⟨GetTime e now, ToString Content ++ ['\n']⟩
  { e with WriteQueue := e.WriteQueue ++ [line] }

/-- `TestMachine::WriteLine` of an initializer list (`TestMachine.cpp` 260-270). -/
def WriteLineList (e : Engine) (now : Int) (Contents : List Variant) : Engine :=
  let line : Line := ⟨GetTime e now, []⟩
  let line := Contents.foldl
    (fun line content => { line with Content := line.Content ++ ToString content }) line
  let line := { line with Content := line.Content ++ ['\n'] }
  { e with WriteQueue := e.WriteQueue ++ [line] }

/-- `TestMachine::InputLine` (`TestMachine.cpp` 348-356). -/
def InputLine (e : Engine) (Line : Str) : Engine :=
  let q := Line.foldl (fun q character => q ++ [character]) e.ReadQueue
  { e with ReadQueue := q ++ ['\n'] }

/-- `TestMachine::Terminate` up to the unlock (`TestMachine.cpp` 323-330); the flag tells whether
the caller goes on to `ProcessThread.join()`. -/
def Terminate (e : Engine) : Engine × Bool :=
  if !e.IsProcessRunning || e.ShouldTerminate then (e, false)
  else ({ e with ShouldTerminate := true }, true)

/-- `TestMachine::Start` from its entry to the test of `IsProcessRunning` (`TestMachine.cpp`
291-293). -/
def Start.enter (e : Engine) (ClearInput : Bool) : Engine :=
  if ClearInput then { e with ReadQueue := [] } else e

/-- `TestMachine::Start` from the test that prevents starting twice (`TestMachine.cpp` 300-320);
the flag tells whether a thread is created. -/
def Start.spawn (e : Engine) : Engine × Bool :=
  if !e.IsProcessRunning then ({ e with IsProcessRunning := true }, true) else (e, false)

/-- The end of the thread function, after `Process` or `OnProcessTermination` has returned
(`TestMachine.cpp` 313-316). -/
def Start.finish (e : Engine) : Engine :=
  { e with IsProcessRunning := false }

/-- The result of the first lines of `Test`. -/
inductive Entered where
  /-- `std::logic_error("Cannot start another test while already testing.")`. -/
  | logic_error
  /-- The session goes on. -/
  | testing
  deriving DecidableEq

/-- `TestMachine::Test` from its entry to the test of `IsProcessRunning` (`TestMachine.cpp`
47-50). -/
def Test.enter (e : Engine) : Engine × Entered :=
  if e.IsTesting then (e, .logic_error) else ({ e with IsTesting := true }, .testing)

/-- The predicate of the first wait of `Test` (`TestMachine.cpp` 67). -/
def Test.ready (e : Engine) : Bool :=
  e.WaitingToRead || !e.IsProcessRunning

/-- `TestMachine::Test` from the end of its first wait to the unlock (`TestMachine.cpp` 69-72):
the engine, and the local `c`. -/
def Test.record (e : Engine) : Engine × Int :=
  ({ e with WriteQueue := [] }, e.ReadCount)

/-- The predicate of the second wait of `Test` (`TestMachine.cpp` 80). -/
def Test.done (e : Engine) (c : Int) : Bool :=
  (e.WaitingToRead && c != e.ReadCount) || !e.IsProcessRunning

/-- `TestMachine::Test` from the end of its second wait to the return (`TestMachine.cpp`
83-85). -/
def Test.collect (e : Engine) : Engine × TestResult :=
  ({ e with WriteQueue := [] }, ⟨e.WriteQueue⟩)

/-! ## The subject and the two threads -/

/-- What the user code does next. -/
inductive Action (σ : Type) where
  | ReadWord (Hint : Str) (k : Str → σ)
  | ReadLine (Hint : Str) (k : Str → σ)
  | WriteLine (Content : Variant) (k : σ)
  | WriteLineList (Contents : List Variant) (k : σ)
  /-- The user function returns. -/
  | Return

/-- The pure virtual functions of `TestMachine` (`TestMachine.h` 57-58) as a state machine over
the states `σ` of the user code: the state in which `Process` starts, given the state the object
is in; the state in which `OnProcessTermination` starts, given the state in which the exception
was thrown; and the next action of the user code in each state. -/
structure Subject (σ : Type) where
  Process : σ → σ
  OnProcessTermination : σ → σ
  next : σ → Action σ

/-- Where the thread function of `ProcessThread` is. -/
inductive Where (σ : Type) where
  /-- In user code, `Process` or `OnProcessTermination`. -/
  | user
  /-- In the wait of `ReadWord` (`TestMachine.cpp` 178-184). -/
  | parkedWord (k : Str → σ)
  /-- In `ReadWord` between the unlock and the lock that follow its wait (`TestMachine.cpp`
  190-192). -/
  | wokenWord (k : Str → σ)
  /-- In the wait of `ReadLine` (`TestMachine.cpp` 221-227). -/
  | parkedLine (k : Str → σ)
  /-- In `ReadLine` between the unlock and the lock that follow its wait (`TestMachine.cpp`
  233-235). -/
  | wokenLine (k : Str → σ)
  /-- The thread function has returned; the thread has not been joined. -/
  | exited

/-- A `std::thread` that is joinable. -/
structure Thread (σ : Type) where
  pc : Where σ
  /-- The `catch` block of the thread function has been entered (`TestMachine.cpp` 308-311). -/
  inHook : Bool

/-- Where the caller of the constructor and of `Test` is. -/
inductive Pc where
  /-- Before the body of the constructor (`TestMachine.cpp` 15). -/
  | TestMachine
  /-- Outside the engine, no call made or the constructor completed. -/
  | idle
  /-- `Test` has been called and has not yet locked (`TestMachine.cpp` 47). -/
  | Test (Input : Str) (RestartProcess : Bool)
  /-- At the `Terminate()` of `Test` (`TestMachine.cpp` 61). -/
  | Terminate (Input : Str)
  /-- At the `ProcessThread.join()` of that `Terminate()` (`TestMachine.cpp` 332). -/
  | join (Input : Str)
  /-- At the entry of `Start()`, called from the constructor (`none`) or from `Test`
  (`TestMachine.cpp` 16, 55, 62). -/
  | Start (Input : Option Str)
  /-- At the `Terminate()` of `Start` (`TestMachine.cpp` 297). -/
  | StartTerminate (Input : Option Str)
  /-- At the `ProcessThread.join()` of that `Terminate()`. -/
  | StartJoin (Input : Option Str)
  /-- At the `guard.lock()` of `Start` (`TestMachine.cpp` 298). -/
  | StartLock (Input : Option Str)
  /-- In the first wait of `Test` (`TestMachine.cpp` 56, 63, 66). -/
  | wait1 (Input : Str)
  /-- At `ResetStartTime()` (`TestMachine.cpp` 74). -/
  | ResetStartTime (Input : Str) (c : Int)
  /-- At `InputLine(Input)` (`TestMachine.cpp` 75). -/
  | InputLine (Input : Str) (c : Int)
  /-- In the second wait of `Test` (`TestMachine.cpp` 77-81). -/
  | wait2 (c : Int)
  /-- `Test` has returned `result`. -/
  | returned (result : TestResult)
  /-- `Test` has thrown `std::logic_error`. -/
  | logic_error
  deriving DecidableEq

/-- The engine, the state of the user code, the thread of the subject and the position of the
driver. -/
structure Config (σ : Type) where
  engine : Engine
  object : σ
  ProcessThread : Option (Thread σ)
  driver : Pc

/-- The engine when the body of the constructor begins (`TestMachine.cpp` 9-13). -/
def Engine.constructed : Engine where
  WaitingToRead := false
  ReadCount := 0
  IsProcessRunning := false
  ShouldTerminate := false
  IsTesting := false
  LastHint := []
  ReadQueue := []
  WriteQueue := []
  StartTime := 0

/-- The configuration when the body of the constructor begins. -/
def Config.constructed {σ : Type} (object : σ) : Config σ where
  engine := Engine.constructed
  object := object
  ProcessThread := none
  driver := .TestMachine

/-- The step of the subject thread after a read operation has released the lock. -/
def afterRead {σ : Type} (c : Config σ) (t : Thread σ) (k : Str → σ) (line : Bool)
    (r : Engine × ReadStep) : Config σ :=
  match r.2 with
  | .returned result =>
    { c with engine := r.1, object := k result, ProcessThread := some { t with pc := .user } }
  | .parked =>
    { c with engine := r.1,
             ProcessThread := some { t with pc := if line then .parkedLine k else .parkedWord k } }

/-- The step of the subject thread after its wait. -/
def afterWake {σ : Type} (S : Subject σ) (c : Config σ) (t : Thread σ) (woken : Where σ)
    (r : Engine × WakeStep) : Except Fault (Config σ) :=
  match r.2 with
  | .blocked => pure c
  | .woken => pure { c with engine := r.1, ProcessThread := some { t with pc := woken } }
  | .thrown =>
    -- `TerminateException` reaches the `catch` of the thread function; thrown by the handler
    -- itself it leaves the thread function
    if t.inHook then throw .stdTerminate
    else pure { c with engine := r.1, object := S.OnProcessTermination c.object,
                       ProcessThread := some { pc := .user, inHook := true } }

/-- One region of the subject thread, from where it is to the next point at which it has
released `Mutex`, when the clock reads `now`. -/
def subjectStep {σ : Type} (S : Subject σ) (now : Int) (c : Config σ) :
    Except Fault (Config σ) :=
  match c.ProcessThread with
  | none => pure c
  | some t =>
    match t.pc with
    | .exited => pure c
    | .user =>
      match S.next c.object with
      | .WriteLine Content k =>
        pure { c with engine := WriteLine c.engine now Content, object := k }
      | .WriteLineList Contents k =>
        pure { c with engine := WriteLineList c.engine now Contents, object := k }
      | .ReadLine Hint k => do
        let r ← ReadLine c.engine Hint
        pure (afterRead c t k true r)
      | .ReadWord Hint k => do
        let r ← ReadWord c.engine Hint
        pure (afterRead c t k false r)
      | .Return =>
        pure { c with engine := Start.finish c.engine,
                      ProcessThread := some { t with pc := .exited } }
    | .parkedLine k => do
      let r ← wake c.engine
      afterWake S c t (.wokenLine k) r
    | .wokenLine k =>
      let r := ReadLine.resume c.engine
      pure { c with engine := r.1, object := k r.2, ProcessThread := some { t with pc := .user } }
    | .parkedWord k => do
      let r ← wake c.engine
      afterWake S c t (.wokenWord k) r
    | .wokenWord k => do
      let r ← ReadWord.resume c.engine
      pure (afterRead c t k false r)

/-- The assignment `ProcessThread = std::thread(...)` (`TestMachine.cpp` 303-317), which calls
`std::terminate` when `ProcessThread` is joinable. -/
def spawn {σ : Type} (S : Subject σ) (c : Config σ) : Except Fault (Config σ) :=
  match c.ProcessThread with
  | some _ => throw .stdTerminate
  | none => pure { c with object := S.Process c.object,
                          ProcessThread := some { pc := .user, inHook := false } }

/-- The position of the driver when `Start()` returns. -/
def afterStart : Option Str → Pc
  | none => .idle
  | some Input => .wait1 Input

/-- `TestMachine::Start` from the test that prevents starting twice to its return
(`TestMachine.cpp` 300-321). -/
def startSpawn {σ : Type} (S : Subject σ) (c : Config σ) (Input : Option Str) :
    Except Fault (Config σ) :=
  let r := Start.spawn c.engine
  if r.2 then do
    let c ← spawn S { c with engine := r.1 }
    pure { c with driver := afterStart Input }
  else pure { c with engine := r.1, driver := afterStart Input }

/-- The first wait of `Test` and what follows it up to the unlock (`TestMachine.cpp` 66-72). -/
def firstWait {σ : Type} (c : Config σ) (Input : Str) : Config σ :=
  if Test.ready c.engine then
    let r := Test.record c.engine
    { c with engine := r.1, driver := .ResetStartTime Input r.2 }
  else { c with driver := .wait1 Input }

/-- `ProcessThread.join()` (`TestMachine.cpp` 332): waits for the thread function to return;
`next` is where the driver goes on. -/
def joinThread {σ : Type} (c : Config σ) (next : Pc) : Except Fault (Config σ) :=
  match c.ProcessThread with
  | none => throw .system_error
  | some t =>
    match t.pc with
    | .exited => pure { c with ProcessThread := none, driver := next }
    | _ => pure c

/-- One region of the driver, from where it is to the next point at which it has released
`Mutex`, when the clock reads `now`. -/
def driverStep {σ : Type} (S : Subject σ) (now : Int) (c : Config σ) :
    Except Fault (Config σ) :=
  match c.driver with
  | .TestMachine => pure { c with engine := ResetStartTime c.engine now, driver := .Start none }
  | .idle => pure c
  | .Test Input RestartProcess =>
    let r := Test.enter c.engine
    match r.2 with
    | .logic_error => pure { c with driver := .logic_error }
    | .testing =>
      if !r.1.IsProcessRunning then pure { c with engine := r.1, driver := .Start (some Input) }
      else if RestartProcess then pure { c with engine := r.1, driver := .Terminate Input }
      else pure (firstWait { c with engine := r.1 } Input)
  | .Terminate Input =>
    let r := Terminate c.engine
    pure { c with engine := r.1, driver := if r.2 then .join Input else .Start (some Input) }
  | .join Input => joinThread c (.Start (some Input))
  | .Start Input =>
    let e := Start.enter c.engine true
    if e.IsProcessRunning then pure { c with engine := e, driver := .StartTerminate Input }
    else startSpawn S { c with engine := e } Input
  | .StartTerminate Input =>
    let r := Terminate c.engine
    pure { c with engine := r.1, driver := if r.2 then .StartJoin Input else .StartLock Input }
  | .StartJoin Input => joinThread c (.StartLock Input)
  | .StartLock Input => startSpawn S c Input
  | .wait1 Input => pure (firstWait c Input)
  | .ResetStartTime Input n =>
    pure { c with engine := ResetStartTime c.engine now, driver := .InputLine Input n }
  | .InputLine Input n =>
    pure { c with engine := InputLine c.engine Input, driver := .wait2 n }
  | .wait2 n =>
    if Test.done c.engine n then
      let r := Test.collect c.engine
      pure { c with engine := r.1, driver := .returned r.2 }
    else pure c
  | .returned _ => pure c
  | .logic_error => pure c

/-- What happens next: a region of the subject thread or of the driver, with the reading of the
clock, or a call of `Test` by the test code. -/
inductive Label where
  | subject (now : Int)
  | driver (now : Int)
  | call (Input : Str) (RestartProcess : Bool)

/-- The test code calls `Test` when it is not inside the engine. -/
def callTest {σ : Type} (c : Config σ) (Input : Str) (RestartProcess : Bool) : Config σ :=
  match c.driver with
  | .idle | .returned _ | .logic_error => { c with driver := .Test Input RestartProcess }
  | _ => c

/-- One step of the system. -/
def step {σ : Type} (S : Subject σ) (l : Label) (c : Config σ) : Except Fault (Config σ) :=
  match l with
  | .subject now => subjectStep S now c
  | .driver now => driverStep S now c
  | .call Input RestartProcess => pure (callTest c Input RestartProcess)

/-- The steps of a schedule, one after the other. -/
def run {σ : Type} (S : Subject σ) : List Label → Config σ → Except Fault (Config σ)
  | [], c => pure c
  | l :: ls, c => do
    let c ← step S l c
    run S ls c

/-! ## What an observer of a session sees -/

/-- The record an observer keeps of the session that `Test` last opened.  A line carries the
number of lines that the subject had appended to `WriteQueue` before it, since the constructor. -/
structure Session where
  /-- The local `c` of `Test`. -/
  c : Int
  /-- The number of lines the subject had appended when `Test` cleared `WriteQueue` and set
  `c`. -/
  discarded : Nat
  /-- The lines the subject appended since then, while `quiet` was false. -/
  appended : List (Nat × Line)
  /-- Since then the subject has been waiting to read with `ReadCount` other than `c`, or has
  ended. -/
  quiet : Bool
  /-- The lines the subject appended since then, after `quiet` became true. -/
  late : List (Nat × Line)

/-- The observer: the number of lines the subject has appended, and the session. -/
structure Monitor where
  produced : Nat
  session : Option Session

/-- The observer before anything happened. -/
def Monitor.start : Monitor := ⟨0, none⟩

/-- The lines of `new`, numbered from `produced`. -/
def number (produced : Nat) (new : List Line) : List (Nat × Line) :=
  (List.range' produced new.length).zip new

/-- The session after a step of the subject that appended the lines `new` and led to the
engine `e`. -/
def Session.see (s : Session) (new : List (Nat × Line)) (e : Engine) : Session :=
  let s :=
    if s.quiet then { s with late := s.late ++ new }
    else { s with appended := s.appended ++ new }
  { s with quiet := s.quiet || Test.done e s.c }

/-- The observer after the step `l` from `c` to `c'`.  It only looks on: after a step of the
subject it numbers the lines that the step added to `WriteQueue`, files them in the session
under `appended` or `late`, and sets `quiet` when the predicate of the second wait of `Test`
holds; after the step of the driver that clears `WriteQueue` and sets `c` (the step that arrives
at `ResetStartTime`) it opens a new session. -/
def observe {σ : Type} (l : Label) (c c' : Config σ) (m : Monitor) : Monitor :=
  match l with
  | .subject _ =>
    let new := c'.engine.WriteQueue.drop c.engine.WriteQueue.length
    { produced := m.produced + new.length,
      session := m.session.map (fun s => s.see (number m.produced new) c'.engine) }
  | .driver _ =>
    match c.driver, c'.driver with
    | .ResetStartTime _ _, _ => m
    | _, .ResetStartTime _ n =>
      { m with session := some ⟨n, m.produced, [], Test.done c'.engine n, []⟩ }
    | _, _ => m
  | .call _ _ => m

/-- The steps of a schedule, one after the other, with the observer. -/
def runObserved {σ : Type} (S : Subject σ) :
    List Label → Config σ × Monitor → Except Fault (Config σ × Monitor)
  | [], cm => pure cm
  | l :: ls, cm => do
    let c ← step S l cm.1
    runObserved S ls (c, observe l cm.1 c cm.2)

/-! ## The echo subject -/

/-- The states of the subjects that read a line and write it back. -/
inductive Echo where
  | greeting
  | reading
  | writing (line : Str)
  | over
  deriving DecidableEq

/-- The next action of the subjects that read a line and write it back. -/
def Echo.next : Echo → Action Echo
  | .greeting => .WriteLine (.string "ready".toList) .reading
  | .reading => .ReadLine [] .writing
  | .writing line => .WriteLine (.string ("you said: ".toList ++ line)) .reading
  | .over => .Return

/-- The subject whose `Process` forever reads a line and writes `"you said: "` followed by it,
and whose `OnProcessTermination` returns at once. -/
def echo : Subject Echo where
  Process := fun _ => .reading
  OnProcessTermination := fun _ => .over
  next := Echo.next

/-- The echo subject that writes `"ready"` before its first read. -/
def greeter : Subject Echo where
  Process := fun _ => .greeting
  OnProcessTermination := fun _ => .over
  next := Echo.next

/-- A schedule of the constructor and of one session with `greeter`: the constructor resets the
clock and starts the subject, which writes `"ready"` and waits; the test code calls
`Test("hello", false)`; the driver enters `Test` and clears `WriteQueue`, resets the clock and
puts the input; the subject wakes, reads the line, writes its answer and waits again; the driver
collects. -/
def greeterSchedule : List Label :=
  [.driver 0, .driver 0, .subject 1, .subject 2, .call "hello".toList false, .driver 3,
   .driver 4, .driver 5, .subject 6, .subject 7, .subject 8, .subject 9, .driver 10]

/-- The states of the subject that reads a token and writes it back. -/
inductive Words where
  | reading
  | writing (word : Str)
  | over
  deriving DecidableEq

/-- The subject whose `Process` forever reads a token with `ReadWord` and writes it back. -/
def words : Subject Words where
  Process := fun _ => .reading
  OnProcessTermination := fun _ => .over
  next
    | .reading => .ReadWord [] .writing
    | .writing word => .WriteLine (.string word) .reading
    | .over => .Return

/-- The subject that reads a token and writes it back, in the wait of its first `ReadWord`, with
`ReadQueue` holding `q`. -/
def wordsWaiting (q : Str) : Config Words where
  engine := { Engine.constructed with IsProcessRunning := true, WaitingToRead := true,
                                      ReadCount := 1, ReadQueue := q }
  object := .reading
  ProcessThread := some ⟨.parkedWord .writing, false⟩
  driver := .idle

/-! ## Invariants of the system -/

/-- The thread is in the wait of a read operation. -/
def Thread.parked {σ : Type} (t : Thread σ) : Bool :=
  match t.pc with
  | .parkedWord _ | .parkedLine _ => true
  | _ => false

/-- The thread function has not returned. -/
def Thread.alive {σ : Type} (t : Thread σ) : Bool :=
  match t.pc with
  | .exited => false
  | _ => true

/-- The subject thread exists and its function has not returned. -/
def Config.running {σ : Type} (c : Config σ) : Bool :=
  match c.ProcessThread with
  | some t => t.alive
  | none => false

/-- The subject thread is in the wait of a read operation. -/
def Config.parked {σ : Type} (c : Config σ) : Bool :=
  match c.ProcessThread with
  | some t => t.parked
  | none => false

/-- The subject thread has entered its `catch` block. -/
def Config.inHook {σ : Type} (c : Config σ) : Bool :=
  match c.ProcessThread with
  | some t => t.inHook
  | none => false

/-- The driver has not passed the entry of a `Test`. -/
def Pc.preSession : Pc → Bool
  | .TestMachine | .idle | .Test _ _ | .Start none | .StartTerminate none | .StartJoin none
  | .StartLock none => true
  | _ => false

/-- The driver is in `Test` between setting `c` and the end of the second wait, before
`InputLine` has run (`false`) or after (`true`). -/
def Pc.collecting : Pc → Option (Int × Bool)
  | .ResetStartTime _ n => some (n, false)
  | .InputLine _ n => some (n, false)
  | .wait2 n => some (n, true)
  | _ => none

/-- The flags agree with the thread: `IsProcessRunning` says that the thread function has not
returned, `WaitingToRead` that it is in the wait of a read, a handler runs only once
`ShouldTerminate` is set, and `IsTesting` is set once a `Test` has passed its entry. -/
structure Consistent {σ : Type} (c : Config σ) : Prop where
  running : c.engine.IsProcessRunning = c.running
  waiting : c.engine.WaitingToRead = c.parked
  hook : c.inHook = true → c.engine.ShouldTerminate = true
  testing : c.engine.IsTesting = true ∨ c.driver.preSession = true

/-- The result that `Test` returned, when the execution ended with the driver back from `Test`. -/
def returnedBy {σ : Type} : Except Fault (Config σ) → Option TestResult
  | .ok c =>
    match c.driver with
    | .returned result => some result
    | _ => none
  | .error _ => none

/-- The driver and the flags at the end of an execution: the position of the driver,
`IsTesting`, `ShouldTerminate`, `IsProcessRunning`, and the content of `ReadQueue`. -/
def outcome {σ : Type} : Except Fault (Config σ) → Option (Pc × Bool × Bool × Bool × List Char)
  | .ok c =>
    some (c.driver, c.engine.IsTesting, c.engine.ShouldTerminate, c.engine.IsProcessRunning,
      c.engine.ReadQueue)
  | .error _ => none

/-! ## The moves of the two threads -/

/-- A read operation went into its wait. -/
def Parks (e e' : Engine) : Prop :=
  ∃ Hint, e' = { e with LastHint := Hint, ReadQueue := [], WaitingToRead := true,
                        ReadCount := e.ReadCount + 1 }

/-- A read operation took characters from the queue. -/
def Reads (e e' : Engine) : Prop :=
  ∃ Hint q, e' = { e with LastHint := Hint, ReadQueue := q }

/-- A wait ended. -/
def Wakes (e e' : Engine) : Prop :=
  e' = { e with WaitingToRead := false, ReadCount := e.ReadCount + 1 }

/-- What a region of the subject thread does, seen through the engine and the flags of the
thread. -/
inductive SubjectMove {σ : Type} (c c' : Config σ) : Prop where
  /-- Nothing: there is no live thread, or its wait goes on. -/
  | stay (h : c' = c)
  /-- `WriteLine`. -/
  | write (line : Line) (hr : c.running = true) (hp : c.parked = false)
      (he : c'.engine = { c.engine with WriteQueue := c.engine.WriteQueue ++ [line] })
      (hr' : c'.running = true) (hp' : c'.parked = false) (hh : c'.inHook = c.inHook)
      (hd : c'.driver = c.driver)
  /-- A read operation returns, or goes on after its wait. -/
  | read (hr : c.running = true) (hp : c.parked = false) (he : Reads c.engine c'.engine)
      (hr' : c'.running = true) (hp' : c'.parked = false) (hh : c'.inHook = c.inHook)
      (hd : c'.driver = c.driver)
  /-- A read operation goes into its wait. -/
  | park (hr : c.running = true) (hp : c.parked = false) (he : Parks c.engine c'.engine)
      (hr' : c'.running = true) (hp' : c'.parked = true) (hh : c'.inHook = c.inHook)
      (hd : c'.driver = c.driver)
  /-- A wait ends with input in the queue. -/
  | woken (hp : c.parked = true) (hs : c.engine.ShouldTerminate = false)
      (hq : c.engine.ReadQueue ≠ []) (he : Wakes c.engine c'.engine)
      (hr' : c'.running = true) (hp' : c'.parked = false) (hh : c'.inHook = c.inHook)
      (hd : c'.driver = c.driver)
  /-- A wait ends with `TerminateException`, which the thread function catches. -/
  | thrown (hp : c.parked = true) (hh0 : c.inHook = false)
      (hs : c.engine.ShouldTerminate = true) (he : Wakes c.engine c'.engine)
      (hr' : c'.running = true) (hp' : c'.parked = false) (hh : c'.inHook = true)
      (hd : c'.driver = c.driver)
  /-- The user function returns and the thread function ends. -/
  | finish (hr : c.running = true) (hp : c.parked = false)
      (he : c'.engine = { c.engine with IsProcessRunning := false })
      (hr' : c'.running = false) (hp' : c'.parked = false) (hh : c'.inHook = c.inHook)
      (hd : c'.driver = c.driver)

/-- The driver is in the constructor, outside the engine before any `Test`, or in `Test` before
the end of its first wait. -/
def Pc.setup : Pc → Bool
  | .TestMachine | .idle | .Terminate _ | .join _ | .Start _ | .StartTerminate _ | .StartJoin _
  | .StartLock _ | .wait1 _ => true
  | _ => false

/-- What a region of the driver does. -/
inductive DriverMove {σ : Type} (c c' : Config σ) : Prop where
  /-- Nothing: the driver is outside the engine, or its wait goes on. -/
  | stay (h : c' = c)
  /-- The constructor resets the clock. -/
  | construct (now : Int) (hd : c.driver = .TestMachine) (hd' : c'.driver = .Start none)
      (he : c'.engine = { c.engine with StartTime := now })
      (ht : c'.ProcessThread = c.ProcessThread)
  /-- `Test` throws `std::logic_error`. -/
  | refuse (Input : Str) (R : Bool) (hd : c.driver = .Test Input R)
      (hi : c.engine.IsTesting = true) (hd' : c'.driver = .logic_error)
      (he : c'.engine = c.engine) (ht : c'.ProcessThread = c.ProcessThread)
  /-- `Test` sets `IsTesting` and goes on to start or restart the subject, or into its first
  wait. -/
  | enter (Input : Str) (R : Bool) (hd : c.driver = .Test Input R)
      (hi : c.engine.IsTesting = false) (hs' : c'.driver.setup = true)
      (hp' : c'.driver.preSession = false)
      (he : c'.engine = { c.engine with IsTesting := true })
      (ht : c'.ProcessThread = c.ProcessThread)
  /-- `Test` sets `IsTesting`, finds the subject ready, clears `WriteQueue` and sets `c`. -/
  | enterRecord (Input : Str) (hd : c.driver = .Test Input false)
      (hi : c.engine.IsTesting = false) (hr : Test.ready c.engine = true)
      (hd' : c'.driver = .ResetStartTime Input c.engine.ReadCount)
      (he : c'.engine = { c.engine with IsTesting := true, WriteQueue := [] })
      (ht : c'.ProcessThread = c.ProcessThread)
  /-- `Terminate` or `Start` finds nothing to do. -/
  | pass (hs : c.driver.setup = true) (hs' : c'.driver.setup = true)
      (hp : c'.driver.preSession = c.driver.preSession)
      (he : c'.engine = c.engine) (ht : c'.ProcessThread = c.ProcessThread)
  /-- `Terminate` sets `ShouldTerminate`. -/
  | request (hs : c.driver.setup = true) (hs' : c'.driver.setup = true)
      (hp : c'.driver.preSession = c.driver.preSession)
      (hr : c.engine.IsProcessRunning = true) (hst : c.engine.ShouldTerminate = false)
      (he : c'.engine = { c.engine with ShouldTerminate := true })
      (ht : c'.ProcessThread = c.ProcessThread)
  /-- `join` returns. -/
  | joined (hs : c.driver.setup = true) (hs' : c'.driver.setup = true)
      (hp : c'.driver.preSession = c.driver.preSession)
      (t : Thread σ) (hT : c.ProcessThread = some t) (hal : t.alive = false)
      (hT' : c'.ProcessThread = none) (he : c'.engine = c.engine)
  /-- `Start` clears `ReadQueue` and finds the subject running. -/
  | clear (hs : c.driver.setup = true) (hs' : c'.driver.setup = true)
      (hp : c'.driver.preSession = c.driver.preSession)
      (hr : c.engine.IsProcessRunning = true)
      (he : c'.engine = { c.engine with ReadQueue := [] })
      (ht : c'.ProcessThread = c.ProcessThread)
  /-- `Start` creates the thread. -/
  | spawn (hs : c.driver.setup = true) (hs' : c'.driver.setup = true)
      (hp : c'.driver.preSession = c.driver.preSession)
      (hr : c.engine.IsProcessRunning = false) (hT : c.ProcessThread = none)
      (hT' : c'.ProcessThread = some ⟨.user, false⟩)
      (he : ∃ q, c'.engine = { c.engine with ReadQueue := q, IsProcessRunning := true })
  /-- The first wait of `Test` ends: `WriteQueue` is cleared and `c` is set. -/
  | record (Input : Str) (hd : c.driver = .wait1 Input) (hr : Test.ready c.engine = true)
      (hd' : c'.driver = .ResetStartTime Input c.engine.ReadCount)
      (he : c'.engine = { c.engine with WriteQueue := [] })
      (ht : c'.ProcessThread = c.ProcessThread)
  /-- `Test` resets the clock. -/
  | reset (now : Int) (Input : Str) (n : Int) (hd : c.driver = .ResetStartTime Input n)
      (hd' : c'.driver = .InputLine Input n)
      (he : c'.engine = { c.engine with StartTime := now })
      (ht : c'.ProcessThread = c.ProcessThread)
  /-- `Test` puts its input and a newline in `ReadQueue`. -/
  | input (Input : Str) (n : Int) (hd : c.driver = .InputLine Input n)
      (hd' : c'.driver = .wait2 n)
      (he : c'.engine = { c.engine with ReadQueue := c.engine.ReadQueue ++ Input ++ ['\n'] })
      (ht : c'.ProcessThread = c.ProcessThread)
  /-- The second wait of `Test` ends and `Test` returns `WriteQueue`, leaving it empty. -/
  | collect (n : Int) (hd : c.driver = .wait2 n) (hdone : Test.done c.engine n = true)
      (hd' : c'.driver = .returned ⟨c.engine.WriteQueue⟩)
      (he : c'.engine = { c.engine with WriteQueue := [] })
      (ht : c'.ProcessThread = c.ProcessThread)

/-- The step is a call of `Test` by the test code. -/
def Label.isCall : Label → Bool
  | .call _ _ => true
  | _ => false

/-- The echo subject in its first wait, after the constructor, with the driver at the entry of
`Test(Input, RestartProcess)`. -/
def echoWaiting (Input : Str) (RestartProcess : Bool) : Config Echo where
  engine := { Engine.constructed with IsProcessRunning := true, WaitingToRead := true,
                                      ReadCount := 1 }
  object := .reading
  ProcessThread := some ⟨.parkedLine .writing, false⟩
  driver := .Test Input RestartProcess

/-- A schedule of one session with the echo subject in its first wait: the driver enters `Test`,
resets the clock and puts the input; the subject wakes, reads the line, writes its answer and
waits again; the driver collects. -/
def echoSchedule : List Label :=
  [.driver 2, .driver 3, .driver 4, .subject 5, .subject 6, .subject 7, .subject 8, .driver 9]

/-- The echo subject in its first wait, with the driver in `Test(Input, true)` at its call of
`Terminate()`. -/
def echoTerminating (Input : Str) : Config Echo where
  engine := { Engine.constructed with IsProcessRunning := true, WaitingToRead := true,
                                      ReadCount := 1, IsTesting := true }
  object := .reading
  ProcessThread := some ⟨.parkedLine .writing, false⟩
  driver := .Terminate Input

/-- A schedule of the restart of the echo subject in its first wait and of what follows: the
driver sets `ShouldTerminate`; the subject wakes, throws, and its thread function ends; the
driver joins, clears the queue and creates the thread; the new subject goes into its first
wait; the driver clears `WriteQueue`, resets the clock and puts the input; the subject wakes;
its thread function ends; the driver collects. -/
def restartSchedule : List Label :=
  [.driver 2, .subject 3, .subject 4, .driver 5, .driver 6, .subject 7, .driver 8, .driver 9,
   .driver 10, .subject 11, .subject 12, .driver 13]

/-- The lines of the session are numbered in the order in which the subject appended them,
from the number of lines discarded, and none has been appended outside the session since. -/
structure Numbered (produced : Nat) (s : Session) : Prop where
  serial : s.appended.map Prod.fst = List.range' s.discarded s.appended.length
  total : produced = s.discarded + s.appended.length

/-- The driver is in `Test` between setting `c` to `n` and the return, `InputLine` having run or
not (`input`): `WriteQueue` holds the lines of the session, and once the subject has been seen
waiting with another `ReadCount`, or ended, it cannot append a line. -/
structure Collecting {σ : Type} (c : Config σ) (s : Session) (n : Int) (input : Bool) :
    Prop where
  epoch : s.c = n
  queue : c.engine.WriteQueue = s.appended.map Prod.snd
  late : s.late = []
  quiet : Test.done c.engine n = true → s.quiet = true
  still : s.quiet = true → c.running = false ∨ c.parked = true
  thread : c.running = true →
    (c.parked = true ∧ c.inHook = false ∧ c.engine.ReadCount = n ∧ s.quiet = false
        ∧ (input = false → c.engine.ShouldTerminate = false → c.engine.ReadQueue = []))
      ∨ c.inHook = true
      ∨ (c.inHook = false ∧ c.engine.ShouldTerminate = false ∧ input = true
        ∧ (c.parked = true → c.engine.ReadQueue = []))

/-- The driver has returned from the `Test` of the session: `WriteQueue` is empty, the result is
the lines of the session, and the subject cannot append a line. -/
structure Collected {σ : Type} (c : Config σ) (s : Session) : Prop where
  late : s.late = []
  quiet : s.quiet = true
  queue : c.engine.WriteQueue = []
  result : ∀ r, c.driver = .returned r → r.Lines = s.appended.map Prod.snd
  after : (∃ r, c.driver = .returned r) ∨ (∃ I R, c.driver = .Test I R) ∨ c.driver = .logic_error
  testing : c.engine.IsTesting = true
  stuck : c.running = false
    ∨ (c.parked = true
      ∧ (c.inHook = true ∨ (c.engine.ShouldTerminate = false ∧ c.engine.ReadQueue = [])))

/-- No `Test` has set its `c` yet: a subject that waits without `ShouldTerminate` has an empty
queue. -/
structure Before {σ : Type} (c : Config σ) : Prop where
  setup : c.driver.collecting = none
  pending : ∀ r, c.driver ≠ .returned r
  queue : c.parked = true → c.engine.ShouldTerminate = false → c.engine.ReadQueue = []

/-- What holds of a configuration and its observer along every execution from the
constructor. -/
def Watched {σ : Type} (c : Config σ) (m : Monitor) : Prop :=
  Consistent c ∧
    match m.session with
    | none => Before c
    | some s =>
      Numbered m.produced s ∧
        match c.driver.collecting with
        | some (n, input) => Collecting c s n input
        | none => Collected c s

/-! # Properties -/

/-! ## The loops -/

theorem foldl_lines (f : Line → Str) (ls : List Line) (acc : Str) :
    ls.foldl (fun result line => result ++ f line) acc = acc ++ (ls.map f).flatten := by
  induction ls generalizing acc with
  | nil => simp
  | cons l ls ih => simp [ih, List.append_assoc]

theorem foldl_lines_if (p : Line → Bool) (f : Line → Str) (ls : List Line) (acc : Str) :
    ls.foldl (fun result line => if p line then result ++ f line else result) acc
      = acc ++ ((ls.filter p).map f).flatten := by
  induction ls generalizing acc with
  | nil => simp
  | cons l ls ih =>
    by_cases h : p l = true
    · simp [ih, h, List.append_assoc]
    · simp [ih, h]

theorem GetAllLines_eq (r : TestResult) :
    r.GetAllLines = (r.Lines.map (fun l => l.Content ++ ['\n'])).flatten := by
  unfold TestResult.GetAllLines
  rw [foldl_lines (fun l => l.Content ++ ['\n'])]
  simp

theorem GetAllLinesDuring_eq (r : TestResult) (a b : Stamp) :
    r.GetAllLinesDuring a b
      = ((r.Lines.filter (fun l => Stamp.le a l.Timestamp && Stamp.le l.Timestamp b)).map
          (fun l => l.Content ++ ['\n'])).flatten := by
  unfold TestResult.GetAllLinesDuring
  rw [foldl_lines_if (fun l => Stamp.ge l.Timestamp a && Stamp.le l.Timestamp b)
    (fun l => l.Content ++ ['\n'])]
  simp [Stamp.ge]

theorem foldl_push (s q : List Char) :
    s.foldl (fun q character => q ++ [character]) q = q ++ s := by
  induction s generalizing q with
  | nil => simp
  | cons c s ih => simp [ih]

theorem lineLoop_spec (s rest acc : Str) (h : '\n' ∉ s) :
    lineLoop (s ++ '\n' :: rest) acc = (acc ++ s, rest) := by
  induction s generalizing acc with
  | nil => simp [lineLoop]
  | cons c s ih =>
    have hc : c ≠ '\n' := fun e => h (by simp [e])
    have hs : '\n' ∉ s := fun e => h (by simp [e])
    simp [lineLoop, hc, ih _ hs]

theorem skipSpaces_spec (ws : List Char) (c : Char) (rest : List Char)
    (hws : ∀ x ∈ ws, isspace x = true) (hc : isspace c = false) :
    skipSpaces (ws ++ c :: rest) = .ok (c :: rest) := by
  induction ws with
  | nil => simp [skipSpaces, hc]
  | cons w ws ih =>
    have hw : isspace w = true := hws w (by simp)
    simp only [List.cons_append, skipSpaces, hw, if_true]
    exact ih (fun x hx => hws x (by simp [hx]))

theorem skipSpaces_blank (ws : List Char) (hws : ∀ x ∈ ws, isspace x = true) :
    skipSpaces ws = .error .frontOfEmptyQueue := by
  induction ws with
  | nil => rfl
  | cons w ws ih =>
    have hw : isspace w = true := hws w (by simp)
    simp only [skipSpaces, hw, if_true]
    exact ih (fun x hx => hws x (by simp [hx]))

theorem wordLoop_spec (tok rest acc : Str) (htok : ∀ x ∈ tok, isspace x = false)
    (hrest : rest = [] ∨ ∃ c r, rest = c :: r ∧ isspace c = true) :
    wordLoop (tok ++ rest) acc = (acc ++ tok, rest) := by
  induction tok generalizing acc with
  | nil =>
    rcases hrest with h | ⟨c, r, h, hc⟩
    · simp [h, wordLoop]
    · simp [h, wordLoop, hc]
  | cons t tok ih =>
    have ht : isspace t = false := htok t (by simp)
    have h := ih (acc ++ [t]) (fun x hx => htok x (by simp [hx]))
    simp [wordLoop, ht, h]


/-! ## The text of a result -/

/-- C6: `GetAllLinesDuring(a, b)` is `GetAllLines` of the result that keeps, in their order, exactly
the lines whose timestamp `t` has `a <= t` and `t <= b`; both are the concatenation of the
contents, each followed by a newline; the kept lines are a sublist of all lines; and when every
timestamp lies between `a` and `b`, as it does for `a = -inf` and `b = +inf` when no timestamp is
NaN, `GetAllLinesDuring(a, b)` is `GetAllLines()`. -/
theorem GetAllLinesDuring_filters (r : TestResult) (a b : Stamp) :
    r.GetAllLinesDuring a b
        = ((r.Lines.filter (fun l => Stamp.le a l.Timestamp && Stamp.le l.Timestamp b)).map
            (fun l => l.Content ++ ['\n'])).flatten
      ∧ r.GetAllLines = (r.Lines.map (fun l => l.Content ++ ['\n'])).flatten
      ∧ r.GetAllLinesDuring a b
          = TestResult.GetAllLines
              ⟨r.Lines.filter (fun l => Stamp.le a l.Timestamp && Stamp.le l.Timestamp b)⟩
      ∧ (r.Lines.filter (fun l => Stamp.le a l.Timestamp && Stamp.le l.Timestamp b)).Sublist
          r.Lines
      ∧ (∀ l, l ∈ r.Lines.filter (fun l => Stamp.le a l.Timestamp && Stamp.le l.Timestamp b)
          ↔ l ∈ r.Lines ∧ Stamp.le a l.Timestamp = true ∧ Stamp.le l.Timestamp b = true)
      ∧ ((∀ l ∈ r.Lines, Stamp.le a l.Timestamp = true ∧ Stamp.le l.Timestamp b = true) →
          r.GetAllLinesDuring a b = r.GetAllLines)
      ∧ ((∀ l ∈ r.Lines, l.Timestamp ≠ Stamp.nan) →
          r.GetAllLinesDuring Stamp.negInf Stamp.posInf = r.GetAllLines) := by
  refine ⟨GetAllLinesDuring_eq r a b, GetAllLines_eq r, ?_, List.filter_sublist _, ?_, ?_, ?_⟩
  · rw [GetAllLinesDuring_eq, GetAllLines_eq]
  · intro l
    simp [List.mem_filter]
  · intro h
    rw [GetAllLinesDuring_eq, GetAllLines_eq]
    congr 2
    apply List.filter_eq_self.mpr
    intro l hl
    simp [h l hl]
  · intro h
    rw [GetAllLinesDuring_eq, GetAllLines_eq]
    congr 2
    apply List.filter_eq_self.mpr
    intro l hl
    have := h l hl
    cases ht : l.Timestamp <;> simp_all [Stamp.le]

/-- C6 at three lines stamped 0, 1 and 2 seconds: between 1 and +inf the first is dropped, and
between -inf and +inf none is. -/
theorem GetAllLinesDuring_filters_witness :
    (TestResult.mk
        [⟨.fin 0, "a".toList⟩, ⟨.fin 1, "b".toList⟩, ⟨.fin 2, "c".toList⟩]).GetAllLinesDuring
        (.fin 1) .posInf = "b\nc\n".toList
      ∧ (TestResult.mk
        [⟨.fin 0, "a".toList⟩, ⟨.fin 1, "b".toList⟩, ⟨.fin 2, "c".toList⟩]).GetAllLinesDuring
        .negInf .posInf
        = (TestResult.mk
            [⟨.fin 0, "a".toList⟩, ⟨.fin 1, "b".toList⟩, ⟨.fin 2, "c".toList⟩]).GetAllLines := by
  refine ⟨?_, (GetAllLinesDuring_filters _ .negInf .posInf).2.2.2.2.2.2 (by simp)⟩
  rw [(GetAllLinesDuring_filters _ (.fin 1) .posInf).1]
  simp [Stamp.le]

/-! ## The input queue -/

/-- C7: `InputLine(s)` changes nothing but `ReadQueue`, to which it appends `s` and one newline;
for a newline-free `s`, `ReadLine` on a queue `s ++ "\n" ++ rest` returns `s` at once, leaves
`rest` in the queue and changes nothing else but `LastHint` (so neither `WaitingToRead` nor
`ReadCount`); hence `InputLine(s)` on an empty queue followed by `ReadLine` returns `s` and leaves
the queue empty. -/
theorem InputLine_ReadLine (e : Engine) (s rest Hint : Str) :
    InputLine e s = { e with ReadQueue := e.ReadQueue ++ s ++ ['\n'] }
      ∧ ('\n' ∉ s → e.ReadQueue = s ++ '\n' :: rest →
          ReadLine e Hint = .ok ({ e with LastHint := Hint, ReadQueue := rest }, .returned s))
      ∧ ('\n' ∉ s → e.ReadQueue = [] →
          ReadLine (InputLine e s) Hint
            = .ok ({ e with LastHint := Hint, ReadQueue := [] }, .returned s)) := by
  have h1 : InputLine e s = { e with ReadQueue := e.ReadQueue ++ s ++ ['\n'] } := by
    simp [InputLine, foldl_push]
  have h2 : ∀ (e : Engine) (rest : Str), '\n' ∉ s → e.ReadQueue = s ++ '\n' :: rest →
      ReadLine e Hint = .ok ({ e with LastHint := Hint, ReadQueue := rest }, .returned s) := by
    intro e rest hs hq
    have hne : (s ++ '\n' :: rest).isEmpty = false := by cases s <;> rfl
    simp [ReadLine, ReadLine.resume, hq, hne, lineLoop_spec s rest [] hs]
    rfl
  refine ⟨h1, h2 e rest, ?_⟩
  intro hs hq
  rw [h1, h2 _ [] hs (by simp [hq])]

/-- C7 at the line `"hello"` on the queue of a new engine. -/
theorem InputLine_ReadLine_witness :
    '\n' ∉ "hello".toList ∧ Engine.constructed.ReadQueue = []
      ∧ ReadLine (InputLine Engine.constructed "hello".toList) "> ".toList
          = .ok ({ Engine.constructed with LastHint := "> ".toList, ReadQueue := [] },
                 .returned "hello".toList) :=
  ⟨by decide, rfl,
    (InputLine_ReadLine Engine.constructed "hello".toList [] "> ".toList).2.2 (by decide) rfl⟩

/-- C8: on a queue `ws ++ tok ++ rest`, with `ws` all whitespace, `tok` non-empty and free of
whitespace, and `rest` empty or starting with whitespace, `ReadWord` returns `tok` at once, leaves
`rest` in the queue and changes nothing else but `LastHint` (so neither `WaitingToRead` nor
`ReadCount`). -/
theorem ReadWord_token (e : Engine) (Hint ws tok rest : Str)
    (hws : ∀ x ∈ ws, isspace x = true) (hne : tok ≠ []) (htok : ∀ x ∈ tok, isspace x = false)
    (hrest : rest = [] ∨ ∃ c r, rest = c :: r ∧ isspace c = true)
    (hq : e.ReadQueue = ws ++ tok ++ rest) :
    ReadWord e Hint = .ok ({ e with LastHint := Hint, ReadQueue := rest }, .returned tok) := by
  obtain ⟨t, tok', rfl⟩ := List.exists_cons_of_ne_nil hne
  have ht : isspace t = false := htok t (by simp)
  have hskip : skipSpaces e.ReadQueue = .ok ((t :: tok') ++ rest) := by
    rw [hq, List.append_assoc]
    exact skipSpaces_spec ws t (tok' ++ rest) hws ht
  have hloop : wordLoop (t :: (tok' ++ rest)) [] = (t :: tok', rest) := by
    simpa using wordLoop_spec (t :: tok') rest [] htok hrest
  simp only [ReadWord, hskip]
  simp only [bind, Except.bind, ReadWord.loop]
  simp [hloop]
  rfl

/-- C8 on the queue `"3 4\n"`: two calls of `ReadWord` return `"3"` and then `"4"` and leave
`"\n"`. -/
theorem ReadWord_token_witness :
    ReadWord { Engine.constructed with ReadQueue := "3 4\n".toList } []
        = .ok ({ Engine.constructed with ReadQueue := " 4\n".toList }, .returned "3".toList)
      ∧ ReadWord { Engine.constructed with ReadQueue := " 4\n".toList } []
        = .ok ({ Engine.constructed with ReadQueue := "\n".toList }, .returned "4".toList) :=
  ⟨ReadWord_token { Engine.constructed with ReadQueue := "3 4\n".toList } [] [] "3".toList
      " 4\n".toList (by decide) (by decide) (by decide) (Or.inr ⟨' ', "4\n".toList, rfl, by decide⟩)
      rfl,
   ReadWord_token { Engine.constructed with ReadQueue := " 4\n".toList } [] " ".toList "4".toList
      "\n".toList (by decide) (by decide) (by decide) (Or.inr ⟨'\n', [], rfl, by decide⟩) rfl⟩

/-- C10, at the failing inputs: on a queue that is empty or holds only whitespace, `ReadWord`
evaluates `ReadQueue.front()` on the empty queue before it has tested `ReadQueue.empty()`, on entry
and again after a wait; so does the first `ReadWord` of every subject that begins with one, the
queue of a new engine being empty. -/
theorem ReadWord_front_of_empty {σ : Type} (S : Subject σ) (object : σ) (k : Str → σ)
    (e : Engine) (Hint : Str) (t0 t1 t2 : Int) :
    ((∀ x ∈ e.ReadQueue, isspace x = true) →
        ReadWord e Hint = .error .frontOfEmptyQueue
          ∧ ReadWord.resume e = .error .frontOfEmptyQueue)
      ∧ (S.next (S.Process object) = .ReadWord Hint k →
          run S [.driver t0, .driver t1, .subject t2] (Config.constructed object)
            = .error .frontOfEmptyQueue) := by
  constructor
  · intro hws
    simp [ReadWord, ReadWord.resume, skipSpaces_blank e.ReadQueue hws, bind, Except.bind]
  · intro hn
    simp [run, step, driverStep, subjectStep, startSpawn, spawn, Start.spawn, Start.enter,
      ResetStartTime, Config.constructed, Engine.constructed, hn, ReadWord, skipSpaces, bind,
      Except.bind, pure, Except.pure]

/-- C10 at the queue of a new engine, which is empty, at the queue `"\n"`, and at the subject
that reads a token and writes it back. -/
theorem ReadWord_front_of_empty_witness :
    ReadWord Engine.constructed [] = .error .frontOfEmptyQueue
      ∧ ReadWord { Engine.constructed with ReadQueue := "\n".toList } []
          = .error .frontOfEmptyQueue
      ∧ run words [.driver 0, .driver 0, .subject 1] (Config.constructed .over)
          = .error .frontOfEmptyQueue :=
  ⟨((ReadWord_front_of_empty words .over .writing Engine.constructed [] 0 0 1).1 (by decide)).1,
   ((ReadWord_front_of_empty words .over .writing
      { Engine.constructed with ReadQueue := "\n".toList } [] 0 0 1).1 (by decide)).1,
   (ReadWord_front_of_empty words .over .writing Engine.constructed [] 0 0 1).2 rfl⟩

/-! ## What one region does to the engine -/

theorem bind_ok {α β : Type} {x : Except Fault α} {f : α → Except Fault β} {b : β}
    (h : (x >>= f) = .ok b) : ∃ a, x = .ok a ∧ f a = .ok b := by
  cases x with
  | error e => cases h
  | ok a => exact ⟨a, rfl, h⟩

theorem increment_ok {n m : Int} (h : increment n = .ok m) : m = n + 1 ∧ n < INT_MAX := by
  unfold increment at h
  split at h
  · cases h; exact ⟨rfl, by assumption⟩
  · cases h

theorem park_ok {e e' : Engine} (h : park e = .ok e') :
    e' = { e with WaitingToRead := true, ReadCount := e.ReadCount + 1 } := by
  unfold park at h
  cases hi : increment e.ReadCount with
  | error f => simp [hi, bind, Except.bind] at h
  | ok m =>
    simp only [hi, bind, Except.bind, pure, Except.pure] at h
    cases h
    rw [(increment_ok hi).1]

theorem wake_ok {e e' : Engine} {w : WakeStep} (h : wake e = .ok (e', w)) :
    (w = .blocked ∧ e' = e ∧ readable e = false)
      ∨ (w = .thrown ∧ e.ShouldTerminate = true ∧ Wakes e e')
      ∨ (w = .woken ∧ e.ShouldTerminate = false ∧ e.ReadQueue ≠ [] ∧ Wakes e e') := by
  unfold wake at h
  by_cases hr : readable e = true
  · cases hi : increment e.ReadCount with
    | error f => simp [hr, hi, bind, Except.bind] at h
    | ok m =>
      have hm := (increment_ok hi).1
      subst hm
      simp only [hr, hi, bind, Except.bind, pure, Except.pure, if_true] at h
      by_cases hs : e.ShouldTerminate = true
      · simp only [hs, if_true] at h
        cases h
        refine Or.inr (Or.inl ⟨rfl, hs, ?_⟩)
        simp [Wakes, ← hs]
      · have hs' : e.ShouldTerminate = false := by simpa using hs
        simp only [hs'] at h
        cases h
        have hq : e.ReadQueue ≠ [] := by
          intro hq
          simp [readable, hq, hs] at hr
        refine Or.inr (Or.inr ⟨rfl, hs', hq, ?_⟩)
        simp [Wakes, ← hs']
  · simp only [hr, pure, Except.pure] at h
    cases h
    exact Or.inl ⟨rfl, rfl, by simpa using hr⟩

theorem ReadLine_resume_reads (e : Engine) : Reads e (ReadLine.resume e).1 :=
  ⟨e.LastHint, (lineLoop e.ReadQueue []).2, rfl⟩

theorem ReadLine_ok {e e' : Engine} {Hint : Str} {r : ReadStep}
    (h : ReadLine e Hint = .ok (e', r)) :
    (r = .parked ∧ Parks e e') ∨ ((∃ s, r = .returned s) ∧ Reads e e') := by
  unfold ReadLine at h
  by_cases hq : e.ReadQueue = []
  · have hne : e.ReadQueue.isEmpty = true := by simp [hq]
    simp only [hne, if_true] at h
    obtain ⟨e1, hp, h⟩ := bind_ok h
    cases h
    rw [park_ok hp]
    exact Or.inl ⟨rfl, Hint, by simp [hq]⟩
  · have hne : e.ReadQueue.isEmpty = false := by
      cases hl : e.ReadQueue with
      | nil => exact absurd hl hq
      | cons a l => rfl
    simp only [hne, pure, Except.pure] at h
    cases h
    exact Or.inr ⟨⟨_, rfl⟩, Hint, _, rfl⟩

theorem ReadWord_loop_ok {e e' : Engine} {r : ReadStep} (h : ReadWord.loop e = .ok (e', r)) :
    (r = .parked ∧ e.ReadQueue = []
        ∧ e' = { e with WaitingToRead := true, ReadCount := e.ReadCount + 1 })
      ∨ ((∃ s, r = .returned s) ∧ ∃ q, e' = { e with ReadQueue := q }) := by
  unfold ReadWord.loop at h
  by_cases hq : e.ReadQueue = []
  · have hne : e.ReadQueue.isEmpty = true := by simp [hq]
    simp only [hne, if_true] at h
    obtain ⟨e1, hp, h⟩ := bind_ok h
    cases h
    exact Or.inl ⟨rfl, hq, park_ok hp⟩
  · have hne : e.ReadQueue.isEmpty = false := by
      cases hl : e.ReadQueue with
      | nil => exact absurd hl hq
      | cons a l => rfl
    simp only [hne, pure, Except.pure] at h
    cases h
    exact Or.inr ⟨⟨_, rfl⟩, _, rfl⟩

theorem ReadWord_resume_ok {e e' : Engine} {r : ReadStep} (h : ReadWord.resume e = .ok (e', r)) :
    (r = .parked ∧ Parks e e') ∨ ((∃ s, r = .returned s) ∧ Reads e e') := by
  unfold ReadWord.resume at h
  obtain ⟨q, hs, h⟩ := bind_ok h
  · rcases ReadWord_loop_ok h with ⟨hr, hq, he⟩ | ⟨hr, q', he⟩
    · refine Or.inl ⟨hr, e.LastHint, ?_⟩
      simp only at hq
      rw [he]; simp [hq]
    · exact Or.inr ⟨hr, e.LastHint, q', by rw [he]⟩

theorem ReadWord_ok {e e' : Engine} {Hint : Str} {r : ReadStep}
    (h : ReadWord e Hint = .ok (e', r)) :
    (r = .parked ∧ Parks e e') ∨ ((∃ s, r = .returned s) ∧ Reads e e') := by
  unfold ReadWord at h
  obtain ⟨q, hs, h⟩ := bind_ok h
  · rcases ReadWord_loop_ok h with ⟨hr, hq, he⟩ | ⟨hr, q', he⟩
    · refine Or.inl ⟨hr, Hint, ?_⟩
      simp only at hq
      rw [he]; simp [hq]
    · exact Or.inr ⟨hr, Hint, q', by rw [he]⟩

theorem afterRead_move {σ : Type} {c : Config σ} {t : Thread σ} (k : Str → σ) (line : Bool)
    {r : Engine × ReadStep} (hT : c.ProcessThread = some t)
    (hpc : t.parked = false) (hal : t.alive = true)
    (hr : (r.2 = .parked ∧ Parks c.engine r.1) ∨ ((∃ s, r.2 = .returned s) ∧ Reads c.engine r.1)) :
    SubjectMove c (afterRead c t k line r) := by
  have h1 : c.running = true := by simp [Config.running, hT, hal]
  have h2 : c.parked = false := by simp [Config.parked, hT, hpc]
  rcases hr with ⟨hp, he⟩ | ⟨⟨s, hs⟩, he⟩
  · refine .park h1 h2 ?_ ?_ ?_ ?_ ?_ <;>
      cases line <;>
      simp [afterRead, hp, he, Config.running, Config.parked, Config.inHook, Thread.alive,
        Thread.parked, hT]
  · refine .read h1 h2 ?_ ?_ ?_ ?_ ?_ <;>
      simp [afterRead, hs, he, Config.running, Config.parked, Config.inHook, Thread.alive,
        Thread.parked, hT]

theorem afterWake_move {σ : Type} {S : Subject σ} {c c' : Config σ} {t : Thread σ}
    (w : Where σ) {r : Engine × WakeStep} (hT : c.ProcessThread = some t)
    (hpc : t.parked = true) (hw : ({ t with pc := w } : Thread σ).parked = false)
    (hw' : ({ t with pc := w } : Thread σ).alive = true)
    (hr : wake c.engine = .ok r) (h : afterWake S c t w r = .ok c') :
    SubjectMove c c' := by
  have h2 : c.parked = true := by simp [Config.parked, hT, hpc]
  obtain ⟨e', ws⟩ := r
  rcases wake_ok hr with ⟨hb, -, -⟩ | ⟨hb, hs, he⟩ | ⟨hb, hs, hq, he⟩
  · subst hb
    simp only [afterWake, pure, Except.pure] at h
    cases h
    exact .stay rfl
  · subst hb
    simp only [afterWake] at h
    by_cases hk : t.inHook = true
    · simp [hk, throw, throwThe, MonadExceptOf.throw] at h
    · simp only [hk, pure, Except.pure] at h
      cases h
      refine .thrown h2 ?_ hs he ?_ ?_ ?_ ?_ <;>
        simp [Config.running, Config.parked, Config.inHook, Thread.alive, Thread.parked, hT]
      simpa using hk
  · subst hb
    simp only [afterWake, pure, Except.pure] at h
    cases h
    refine .woken h2 hs hq he ?_ ?_ ?_ ?_
    · simpa [Config.running] using hw'
    · simpa [Config.parked] using hw
    · simp [Config.inHook, hT]
    · rfl

theorem subjectStep_move {σ : Type} {S : Subject σ} {now : Int} {c c' : Config σ}
    (h : subjectStep S now c = .ok c') : SubjectMove c c' := by
  unfold subjectStep at h
  cases hT : c.ProcessThread with
  | none =>
    simp only [hT, pure, Except.pure] at h
    cases h
    exact .stay rfl
  | some t =>
    simp only [hT] at h
    cases hpc : t.pc with
    | exited =>
      simp only [hpc, pure, Except.pure] at h
      cases h
      exact .stay rfl
    | user =>
      have h1 : c.running = true := by simp [Config.running, hT, Thread.alive, hpc]
      have h2 : c.parked = false := by simp [Config.parked, hT, Thread.parked, hpc]
      simp only [hpc] at h
      cases hn : S.next c.object with
      | WriteLine Content k =>
        simp only [hn, pure, Except.pure] at h
        cases h
        refine .write _ h1 h2 rfl ?_ ?_ ?_ rfl <;>
          simp [Config.running, Config.parked, Config.inHook, Thread.alive, Thread.parked, hT, hpc]
      | WriteLineList Contents k =>
        simp only [hn, pure, Except.pure] at h
        cases h
        refine .write _ h1 h2 rfl ?_ ?_ ?_ rfl <;>
          simp [Config.running, Config.parked, Config.inHook, Thread.alive, Thread.parked, hT, hpc]
      | ReadLine Hint k =>
        simp only [hn] at h
        obtain ⟨r, hr, h⟩ := bind_ok h
        cases h
        exact afterRead_move k true hT (by simp [Thread.parked, hpc]) (by simp [Thread.alive, hpc])
          (ReadLine_ok hr)
      | ReadWord Hint k =>
        simp only [hn] at h
        obtain ⟨r, hr, h⟩ := bind_ok h
        cases h
        exact afterRead_move k false hT (by simp [Thread.parked, hpc]) (by simp [Thread.alive, hpc])
          (ReadWord_ok hr)
      | Return =>
        simp only [hn, pure, Except.pure] at h
        cases h
        refine .finish h1 h2 rfl ?_ ?_ ?_ rfl <;>
          simp [Config.running, Config.parked, Config.inHook, Thread.alive, Thread.parked, hT]
    | parkedLine k =>
      simp only [hpc] at h
      obtain ⟨r, hr, h⟩ := bind_ok h
      exact afterWake_move _ hT (by simp [Thread.parked, hpc]) (by simp [Thread.parked])
        (by simp [Thread.alive]) hr h
    | parkedWord k =>
      simp only [hpc] at h
      obtain ⟨r, hr, h⟩ := bind_ok h
      exact afterWake_move _ hT (by simp [Thread.parked, hpc]) (by simp [Thread.parked])
        (by simp [Thread.alive]) hr h
    | wokenLine k =>
      have h1 : c.running = true := by simp [Config.running, hT, Thread.alive, hpc]
      have h2 : c.parked = false := by simp [Config.parked, hT, Thread.parked, hpc]
      simp only [hpc, pure, Except.pure] at h
      cases h
      refine .read h1 h2 (ReadLine_resume_reads _) ?_ ?_ ?_ rfl <;>
        simp [Config.running, Config.parked, Config.inHook, Thread.alive, Thread.parked, hT]
    | wokenWord k =>
      simp only [hpc] at h
      obtain ⟨r, hr, h⟩ := bind_ok h
      cases h
      exact afterRead_move k false hT (by simp [Thread.parked, hpc]) (by simp [Thread.alive, hpc])
        (ReadWord_resume_ok hr)

theorem firstWait_move {σ : Type} {c : Config σ} (Input : Str)
    (hd : c.driver = .wait1 Input) : DriverMove c (firstWait c Input) := by
  unfold firstWait
  by_cases hr : Test.ready c.engine = true
  · simp only [hr, if_true]
    exact .record Input hd hr rfl rfl rfl
  · simp only [hr]
    refine .stay ?_
    obtain ⟨e, obj, T, d⟩ := c
    simp only at hd
    subst hd
    rfl

theorem joinThread_move {σ : Type} {c c' : Config σ} (next : Pc)
    (hs : c.driver.setup = true) (hs' : next.setup = true)
    (hp : next.preSession = c.driver.preSession)
    (h : joinThread c next = .ok c') : DriverMove c c' := by
  unfold joinThread at h
  cases hT : c.ProcessThread with
  | none => simp [hT, throw, throwThe, MonadExceptOf.throw] at h
  | some t =>
    simp only [hT] at h
    cases hpc : t.pc <;> simp only [hpc, pure, Except.pure] at h <;> cases h <;>
      first
      | exact .stay rfl
      | exact .joined hs hs' hp t hT (by simp [Thread.alive, hpc]) rfl rfl

theorem Terminate_move {σ : Type} {c : Config σ} {a b : Pc}
    (hs : c.driver.setup = true) (ha : a.setup = true) (hb : b.setup = true)
    (hpa : a.preSession = c.driver.preSession) (hpb : b.preSession = c.driver.preSession) :
    DriverMove c { c with engine := (Terminate c.engine).1,
                          driver := if (Terminate c.engine).2 then a else b } := by
  unfold Terminate
  by_cases h : (!c.engine.IsProcessRunning || c.engine.ShouldTerminate) = true
  · simp only [h, if_true]
    exact .pass hs hb hpb rfl rfl
  · simp only [h]
    simp only [Bool.or_eq_true, Bool.not_eq_true', not_or, Bool.not_eq_false,
      Bool.not_eq_true] at h
    exact .request hs ha hpa h.1 h.2 rfl rfl

theorem startSpawn_move {σ : Type} {S : Subject σ} (c c0 : Config σ) {c' : Config σ}
    (Input : Option Str)
    (hs : c0.driver.setup = true) (hp : (afterStart Input).preSession = c0.driver.preSession)
    (hT : c.ProcessThread = c0.ProcessThread) (he : ∃ q, c.engine = { c0.engine with ReadQueue := q })
    (h : startSpawn S c Input = .ok c') : DriverMove c0 c' ∨ (c0.engine.IsProcessRunning = true ∧
      c'.engine = c.engine ∧ c'.ProcessThread = c.ProcessThread ∧ c'.driver = afterStart Input) := by
  have hs' : (afterStart Input).setup = true := by cases Input <;> rfl
  obtain ⟨q, he⟩ := he
  unfold startSpawn at h
  unfold Start.spawn at h
  by_cases hr : c.engine.IsProcessRunning = true
  · simp only [hr, Bool.not_true, pure, Except.pure] at h
    simp at h
    cases h
    right
    refine ⟨?_, rfl, rfl, rfl⟩
    rw [he] at hr
    exact hr
  · have hr' : c.engine.IsProcessRunning = false := by simpa using hr
    simp only [hr', Bool.not_false, if_true] at h
    obtain ⟨c1, h1, h⟩ := bind_ok h
    cases h
    unfold IOUnitTest.TestMachine.spawn at h1
    cases hT1 : c.ProcessThread with
    | some t => simp [hT1, throw, throwThe, MonadExceptOf.throw] at h1
    | none =>
      simp only [hT1, pure, Except.pure] at h1
      cases h1
      left
      refine .spawn hs hs' hp ?_ (by rw [← hT, hT1]) rfl ⟨q, ?_⟩
      · rw [he] at hr'; exact hr'
      · simp [he]

theorem driverStep_move {σ : Type} {S : Subject σ} {now : Int} {c c' : Config σ}
    (h : driverStep S now c = .ok c') : DriverMove c c' := by
  unfold driverStep at h
  cases hd : c.driver with
  | TestMachine =>
    simp only [hd, pure, Except.pure] at h
    cases h
    exact .construct now hd rfl rfl rfl
  | idle => simp only [hd, pure, Except.pure] at h; cases h; exact .stay rfl
  | returned r => simp only [hd, pure, Except.pure] at h; cases h; exact .stay rfl
  | logic_error => simp only [hd, pure, Except.pure] at h; cases h; exact .stay rfl
  | Test Input R =>
    obtain ⟨⟨W, RC, IPR, ST, IT, LH, RQ, WQ, STm⟩, obj, T, d⟩ := c
    simp only at hd
    subst hd
    cases IT <;> cases IPR <;> cases R <;> cases W <;>
      simp [Test.enter, firstWait, Test.ready, Test.record, pure, Except.pure] at h <;>
      subst h <;>
      first
      | exact .refuse _ _ rfl rfl rfl rfl rfl
      | exact .enterRecord _ rfl rfl rfl rfl rfl rfl
      | exact .enter _ _ rfl rfl rfl rfl rfl rfl
  | Terminate Input =>
    simp only [hd, pure, Except.pure] at h
    cases h
    exact Terminate_move (by simp [hd, Pc.setup]) rfl rfl (by simp [hd, Pc.preSession])
      (by simp [hd, Pc.preSession])
  | StartTerminate Input =>
    simp only [hd, pure, Except.pure] at h
    cases h
    exact Terminate_move (by simp [hd, Pc.setup]) rfl rfl
      (by cases Input <;> simp [hd, Pc.preSession])
      (by cases Input <;> simp [hd, Pc.preSession])
  | join Input =>
    simp only [hd] at h
    exact joinThread_move (.Start (some Input)) (by simp [hd, Pc.setup]) rfl
      (by simp [hd, Pc.preSession]) h
  | StartJoin Input =>
    simp only [hd] at h
    exact joinThread_move (.StartLock Input) (by simp [hd, Pc.setup]) rfl
      (by cases Input <;> simp [hd, Pc.preSession]) h
  | Start Input =>
    obtain ⟨e, obj, T, d⟩ := c
    simp only at hd
    subst hd
    simp only at h
    have hp : (afterStart Input).preSession = (Pc.Start Input).preSession := by
      cases Input <;> rfl
    by_cases hr : e.IsProcessRunning = true
    · have : (Start.enter e true).IsProcessRunning = true := hr
      simp only [this, if_true, pure, Except.pure] at h
      cases h
      exact .clear rfl rfl (by cases Input <;> rfl) hr rfl rfl
    · have : (Start.enter e true).IsProcessRunning = false := by simpa using hr
      simp only [this, Bool.false_eq_true, if_false] at h
      rcases startSpawn_move ⟨Start.enter e true, obj, T, .Start Input⟩ ⟨e, obj, T, .Start Input⟩
        Input rfl hp rfl ⟨[], rfl⟩ h with h | ⟨h1, -⟩
      · exact h
      · exact absurd h1 hr
  | StartLock Input =>
    obtain ⟨e, obj, T, d⟩ := c
    simp only at hd
    subst hd
    simp only at h
    have hp : (afterStart Input).preSession = (Pc.StartLock Input).preSession := by
      cases Input <;> rfl
    rcases startSpawn_move ⟨e, obj, T, .StartLock Input⟩ ⟨e, obj, T, .StartLock Input⟩
      Input rfl hp rfl ⟨e.ReadQueue, rfl⟩ h with h | ⟨-, h1, h2, h3⟩
    · exact h
    · exact .pass rfl (by rw [h3]; cases Input <;> rfl) (by rw [h3]; exact hp) h1 h2
  | wait1 Input =>
    simp only [hd, pure, Except.pure] at h
    cases h
    exact firstWait_move Input hd
  | ResetStartTime Input n =>
    simp only [hd, pure, Except.pure] at h
    cases h
    exact .reset now Input n hd rfl rfl rfl
  | InputLine Input n =>
    simp only [hd, pure, Except.pure] at h
    cases h
    refine .input Input n hd rfl ?_ rfl
    simp [InputLine, foldl_push]
  | wait2 n =>
    simp only [hd] at h
    by_cases hdn : Test.done c.engine n = true
    · simp only [hdn, if_true, pure, Except.pure] at h
      cases h
      exact .collect n hd hdn rfl rfl rfl
    · simp only [hdn, pure, Except.pure] at h
      cases h
      exact .stay rfl

/-! ## Steps and executions -/

/-- A call of `Test` changes the position of the driver at most. -/
theorem callTest_eq {σ : Type} (c : Config σ) (Input : Str) (R : Bool) :
    callTest c Input R = c
      ∨ (c.driver.preSession = true ∨ (∃ r, c.driver = .returned r) ∨ c.driver = .logic_error)
        ∧ callTest c Input R = { c with driver := .Test Input R } := by
  unfold callTest
  cases hd : c.driver <;> simp [Pc.preSession]

theorem run_cons {σ : Type} {S : Subject σ} {l : Label} {ls : List Label} {c c' : Config σ}
    (h : run S (l :: ls) c = .ok c') : ∃ c1, step S l c = .ok c1 ∧ run S ls c1 = .ok c' :=
  bind_ok h

/-- A property that every step keeps holds at the end of every execution. -/
theorem run_induction {σ : Type} {S : Subject σ} (P : Config σ → Prop)
    (hstep : ∀ l c c', P c → step S l c = .ok c' → P c')
    {ls : List Label} {c c' : Config σ} (h : run S ls c = .ok c') (hc : P c) : P c' := by
  induction ls generalizing c with
  | nil => cases h; exact hc
  | cons l ls ih =>
    obtain ⟨c1, h1, h2⟩ := run_cons h
    exact ih h2 (hstep l c c1 hc h1)

theorem flags_of_thread {σ : Type} {c c' : Config σ} (h : c'.ProcessThread = c.ProcessThread) :
    c'.running = c.running ∧ c'.parked = c.parked ∧ c'.inHook = c.inHook := by
  simp [Config.running, Config.parked, Config.inHook, h]

theorem parked_running {σ : Type} {c : Config σ} (h : c.parked = true) : c.running = true := by
  unfold Config.parked at h
  unfold Config.running
  cases hT : c.ProcessThread with
  | none => simp [hT] at h
  | some t =>
    simp only [hT] at h ⊢
    unfold Thread.parked at h
    unfold Thread.alive
    cases hpc : t.pc <;> simp_all

/-- The flags agree with the thread when the body of the constructor begins. -/
theorem consistent_constructed {σ : Type} (object : σ) :
    Consistent (Config.constructed object) :=
  ⟨rfl, rfl, by simp [Config.inHook, Config.constructed], Or.inr rfl⟩

theorem consistent_subject {σ : Type} {c c' : Config σ} (hc : Consistent c)
    (h : SubjectMove c c') : Consistent c' := by
  obtain ⟨h1, h2, h3, h4⟩ := hc
  cases h with
  | stay h => subst h; exact ⟨h1, h2, h3, h4⟩
  | write line hr hp he hr' hp' hh hd =>
    refine ⟨?_, ?_, ?_, ?_⟩ <;> simp_all
  | read hr hp he hr' hp' hh hd =>
    obtain ⟨Hint, q, he⟩ := he
    refine ⟨?_, ?_, ?_, ?_⟩ <;> simp_all
  | park hr hp he hr' hp' hh hd =>
    obtain ⟨Hint, he⟩ := he
    refine ⟨?_, ?_, ?_, ?_⟩ <;> simp_all
  | woken hp hs hq he hr' hp' hh hd =>
    have hr := parked_running hp
    unfold Wakes at he
    refine ⟨?_, ?_, ?_, ?_⟩ <;> simp_all
  | thrown hp hh0 hs he hr' hp' hh hd =>
    have hr := parked_running hp
    unfold Wakes at he
    refine ⟨?_, ?_, ?_, ?_⟩ <;> simp_all
  | finish hr hp he hr' hp' hh hd =>
    refine ⟨?_, ?_, ?_, ?_⟩ <;> simp_all

theorem consistent_driver {σ : Type} {c c' : Config σ} (hc : Consistent c)
    (h : DriverMove c c') : Consistent c' := by
  obtain ⟨h1, h2, h3, h4⟩ := hc
  cases h with
  | stay h => subst h; exact ⟨h1, h2, h3, h4⟩
  | construct now hd hd' he ht =>
    obtain ⟨f1, f2, f3⟩ := flags_of_thread ht
    refine ⟨?_, ?_, ?_, ?_⟩ <;> simp_all [Pc.preSession]
  | refuse Input R hd hi hd' he ht =>
    obtain ⟨f1, f2, f3⟩ := flags_of_thread ht
    refine ⟨?_, ?_, ?_, ?_⟩ <;> simp_all
  | enter Input R hd hi hs' hp' he ht =>
    obtain ⟨f1, f2, f3⟩ := flags_of_thread ht
    refine ⟨?_, ?_, ?_, ?_⟩ <;> simp_all
  | enterRecord Input hd hi hr hd' he ht =>
    obtain ⟨f1, f2, f3⟩ := flags_of_thread ht
    refine ⟨?_, ?_, ?_, ?_⟩ <;> simp_all
  | pass hs hs' hp he ht =>
    obtain ⟨f1, f2, f3⟩ := flags_of_thread ht
    refine ⟨?_, ?_, ?_, ?_⟩ <;> simp_all
  | request hs hs' hp hr hst he ht =>
    obtain ⟨f1, f2, f3⟩ := flags_of_thread ht
    refine ⟨?_, ?_, ?_, ?_⟩ <;> simp_all
  | joined hs hs' hp t hT hal hT' he =>
    have hpk : t.parked = false := by
      unfold Thread.alive at hal
      unfold Thread.parked
      cases hpc : t.pc <;> simp_all
    refine ⟨?_, ?_, ?_, ?_⟩ <;>
      simp_all [Config.running, Config.parked, Config.inHook]
  | clear hs hs' hp hr he ht =>
    obtain ⟨f1, f2, f3⟩ := flags_of_thread ht
    refine ⟨?_, ?_, ?_, ?_⟩ <;> simp_all
  | spawn hs hs' hp hr hT hT' he =>
    obtain ⟨q, he⟩ := he
    refine ⟨?_, ?_, ?_, ?_⟩ <;>
      simp_all [Config.running, Config.parked, Config.inHook, Thread.alive, Thread.parked]
  | record Input hd hr hd' he ht =>
    obtain ⟨f1, f2, f3⟩ := flags_of_thread ht
    refine ⟨?_, ?_, ?_, ?_⟩ <;> simp_all [Pc.preSession]
  | reset now Input n hd hd' he ht =>
    obtain ⟨f1, f2, f3⟩ := flags_of_thread ht
    refine ⟨?_, ?_, ?_, ?_⟩ <;> simp_all [Pc.preSession]
  | input Input n hd hd' he ht =>
    obtain ⟨f1, f2, f3⟩ := flags_of_thread ht
    refine ⟨?_, ?_, ?_, ?_⟩ <;> simp_all [Pc.preSession]
  | collect n hd hdone hd' he ht =>
    obtain ⟨f1, f2, f3⟩ := flags_of_thread ht
    refine ⟨?_, ?_, ?_, ?_⟩ <;> simp_all [Pc.preSession]

/-- Every step keeps the flags in agreement with the thread. -/
theorem consistent_step {σ : Type} {S : Subject σ} (l : Label) (c c' : Config σ)
    (hc : Consistent c) (h : step S l c = .ok c') : Consistent c' := by
  cases l with
  | subject now => exact consistent_subject hc (subjectStep_move h)
  | driver now => exact consistent_driver hc (driverStep_move h)
  | call Input R =>
    simp only [step, pure, Except.pure] at h
    cases h
    rcases callTest_eq c Input R with h | ⟨-, h⟩
    · rw [h]; exact hc
    · rw [h]
      obtain ⟨h1, h2, h3, h4⟩ := hc
      exact ⟨h1, h2, h3, Or.inr rfl⟩

/-- A property that every step other than a call keeps holds at the end of every execution
without calls. -/
theorem run_induction_session {σ : Type} {S : Subject σ} (P : Config σ → Prop)
    (hstep : ∀ l c c', l.isCall = false → P c → step S l c = .ok c' → P c')
    {ls : List Label} {c c' : Config σ} (hl : ∀ l ∈ ls, l.isCall = false)
    (h : run S ls c = .ok c') (hc : P c) : P c' := by
  induction ls generalizing c with
  | nil => cases h; exact hc
  | cons l ls ih =>
    obtain ⟨c1, h1, h2⟩ := run_cons h
    exact ih (fun x hx => hl x (by simp [hx])) h2 (hstep l c c1 (hl l (by simp)) hc h1)

/-- What a region of the subject leaves alone. -/
theorem subject_frame {σ : Type} {c c' : Config σ} (h : SubjectMove c c') :
    c'.engine.IsTesting = c.engine.IsTesting
      ∧ c'.engine.ShouldTerminate = c.engine.ShouldTerminate
      ∧ c'.driver = c.driver := by
  cases h with
  | stay h => subst h; exact ⟨rfl, rfl, rfl⟩
  | write line hr hp he hr' hp' hh hd => simp [he, hd]
  | read hr hp he hr' hp' hh hd => obtain ⟨Hint, q, he⟩ := he; simp [he, hd]
  | park hr hp he hr' hp' hh hd => obtain ⟨Hint, he⟩ := he; simp [he, hd]
  | woken hp hs hq he hr' hp' hh hd => unfold Wakes at he; simp [he, hd]
  | thrown hp hh0 hs he hr' hp' hh hd => unfold Wakes at he; simp [he, hd]
  | finish hr hp he hr' hp' hh hd => simp [he, hd]

/-- What a region of the driver leaves alone: it changes neither `WaitingToRead` nor
`ReadCount`, and it resets neither `IsTesting` nor `ShouldTerminate`. -/
theorem driver_frame {σ : Type} {c c' : Config σ} (h : DriverMove c c') :
    c'.engine.WaitingToRead = c.engine.WaitingToRead
      ∧ c'.engine.ReadCount = c.engine.ReadCount
      ∧ (c.engine.IsTesting = true → c'.engine.IsTesting = true)
      ∧ (c.engine.ShouldTerminate = true → c'.engine.ShouldTerminate = true) := by
  cases h with
  | stay h => subst h; simp
  | construct now hd hd' he ht => simp [he]
  | refuse Input R hd hi hd' he ht => simp [he]
  | enter Input R hd hi hs' hp' he ht => simp [he]
  | enterRecord Input hd hi hr hd' he ht => simp [he]
  | pass hs hs' hp he ht => simp [he]
  | request hs hs' hp hr hst he ht => simp [he]
  | joined hs hs' hp t hT hal hT' he => simp [he]
  | clear hs hs' hp hr he ht => simp [he]
  | spawn hs hs' hp hr hT hT' he => obtain ⟨q, he⟩ := he; simp [he]
  | record Input hd hr hd' he ht => simp [he]
  | reset now Input n hd hd' he ht => simp [he]
  | input Input n hd hd' he ht => simp [he]
  | collect n hd hdone hd' he ht => simp [he]

/-- No step resets `IsTesting`. -/
theorem IsTesting_step {σ : Type} {S : Subject σ} (l : Label) (c c' : Config σ)
    (hc : c.engine.IsTesting = true ∨ c.driver.preSession = true)
    (h : step S l c = .ok c') :
    c'.engine.IsTesting = true ∨ c'.driver.preSession = true := by
  cases l with
  | subject now =>
    obtain ⟨h1, -, h3⟩ := subject_frame (subjectStep_move h)
    rw [h1, h3]; exact hc
  | driver now =>
    have hm := driverStep_move h
    have hf := (driver_frame hm).2.2.1
    rcases hc with hc | hc
    · exact Or.inl (hf hc)
    · cases hm with
      | stay h => subst h; exact Or.inr hc
      | construct now hd hd' he ht => right; simp [hd', Pc.preSession]
      | refuse Input R hd hi hd' he ht => left; rw [he]; exact hi
      | enter Input R hd hi hs' hp' he ht => left; simp [he]
      | enterRecord Input hd hi hr hd' he ht => left; simp [he]
      | pass hs hs' hp he ht => right; rw [hp]; exact hc
      | request hs hs' hp hr hst he ht => right; rw [hp]; exact hc
      | joined hs hs' hp t hT hal hT' he => right; rw [hp]; exact hc
      | clear hs hs' hp hr he ht => right; rw [hp]; exact hc
      | spawn hs hs' hp hr hT hT' he => right; rw [hp]; exact hc
      | record Input hd hr hd' he ht => simp [hd, Pc.preSession] at hc
      | reset now Input n hd hd' he ht => simp [hd, Pc.preSession] at hc
      | input Input n hd hd' he ht => simp [hd, Pc.preSession] at hc
      | collect n hd hdone hd' he ht => simp [hd, Pc.preSession] at hc
  | call Input R =>
    simp only [step, pure, Except.pure] at h
    cases h
    rcases callTest_eq c Input R with h | ⟨-, h⟩
    · rw [h]; exact hc
    · rw [h]; exact Or.inr rfl

/-- No step resets `ShouldTerminate`. -/
theorem ShouldTerminate_step {σ : Type} {S : Subject σ} (l : Label) (c c' : Config σ)
    (hc : c.engine.ShouldTerminate = true) (h : step S l c = .ok c') :
    c'.engine.ShouldTerminate = true := by
  cases l with
  | subject now =>
    rw [(subject_frame (subjectStep_move h)).2.1]; exact hc
  | driver now => exact (driver_frame (driverStep_move h)).2.2.2 hc
  | call Input R =>
    simp only [step, pure, Except.pure] at h
    cases h
    rcases callTest_eq c Input R with h | ⟨-, h⟩ <;> rw [h] <;> exact hc

/-- Within a call of `Test` that passed its entry the driver does not reach the throw. -/
theorem no_logic_error_step {σ : Type} {S : Subject σ} (l : Label) (c c' : Config σ)
    (hl : l.isCall = false)
    (hc : c.driver ≠ .logic_error ∧ ∀ I R, c.driver = .Test I R → c.engine.IsTesting = false)
    (h : step S l c = .ok c') :
    c'.driver ≠ .logic_error ∧ ∀ I R, c'.driver = .Test I R → c'.engine.IsTesting = false := by
  cases l with
  | subject now =>
    obtain ⟨h1, -, h3⟩ := subject_frame (subjectStep_move h)
    rw [h1, h3]; exact hc
  | driver now =>
    have hm := driverStep_move h
    have key : ∀ p : Pc, p.setup = true → p ≠ .logic_error ∧ ∀ I R, p ≠ .Test I R := by
      intro p hp
      cases p <;> simp [Pc.setup] at hp ⊢
    cases hm with
    | stay h => subst h; exact hc
    | refuse Input R hd hi hd' he ht => rw [hc.2 Input R hd] at hi; cases hi
    | construct now hd hd' he ht => simp [hd']
    | enter Input R hd hi hs' hp' he ht =>
      exact ⟨(key _ hs').1, fun I R h => absurd h ((key _ hs').2 I R)⟩
    | enterRecord Input hd hi hr hd' he ht => simp [hd']
    | pass hs hs' hp he ht => exact ⟨(key _ hs').1, fun I R h => absurd h ((key _ hs').2 I R)⟩
    | request hs hs' hp hr hst he ht =>
      exact ⟨(key _ hs').1, fun I R h => absurd h ((key _ hs').2 I R)⟩
    | joined hs hs' hp t hT hal hT' he =>
      exact ⟨(key _ hs').1, fun I R h => absurd h ((key _ hs').2 I R)⟩
    | clear hs hs' hp hr he ht =>
      exact ⟨(key _ hs').1, fun I R h => absurd h ((key _ hs').2 I R)⟩
    | spawn hs hs' hp hr hT hT' he =>
      exact ⟨(key _ hs').1, fun I R h => absurd h ((key _ hs').2 I R)⟩
    | record Input hd hr hd' he ht => simp [hd']
    | reset now Input n hd hd' he ht => simp [hd']
    | input Input n hd hd' he ht => simp [hd']
    | collect n hd hdone hd' he ht => simp [hd']
  | call Input R => cases hl

/-- The flag and the counter of the handshake change together: a step of a consistent
configuration leaves both alone, or flips `WaitingToRead` and adds one to `ReadCount`. -/
theorem handshake_step {σ : Type} {S : Subject σ} (l : Label) (c c' : Config σ)
    (hc : Consistent c) (h : step S l c = .ok c') :
    (c'.engine.WaitingToRead = c.engine.WaitingToRead
        ∧ c'.engine.ReadCount = c.engine.ReadCount)
      ∨ (c'.engine.WaitingToRead = !c.engine.WaitingToRead
        ∧ c'.engine.ReadCount = c.engine.ReadCount + 1) := by
  cases l with
  | subject now =>
    have hw := hc.waiting
    cases subjectStep_move h with
    | stay h => subst h; exact Or.inl ⟨rfl, rfl⟩
    | write line hr hp he hr' hp' hh hd => left; simp [he]
    | read hr hp he hr' hp' hh hd => obtain ⟨Hint, q, he⟩ := he; left; simp [he]
    | park hr hp he hr' hp' hh hd =>
      obtain ⟨Hint, he⟩ := he; right; simp [he, hw, hp]
    | woken hp hs hq he hr' hp' hh hd => unfold Wakes at he; right; simp [he, hw, hp]
    | thrown hp hh0 hs he hr' hp' hh hd => unfold Wakes at he; right; simp [he, hw, hp]
    | finish hr hp he hr' hp' hh hd => left; simp [he]
  | driver now =>
    obtain ⟨h1, h2, -⟩ := driver_frame (driverStep_move h)
    exact Or.inl ⟨h1, h2⟩
  | call Input R =>
    simp only [step, pure, Except.pure] at h
    cases h
    rcases callTest_eq c Input R with h | ⟨-, h⟩ <;> rw [h] <;> exact Or.inl ⟨rfl, rfl⟩

/-- `ReadCount` does not decrease in a step, consistent or not. -/
theorem ReadCount_step {σ : Type} {S : Subject σ} (l : Label) (c c' : Config σ)
    (h : step S l c = .ok c') : c.engine.ReadCount ≤ c'.engine.ReadCount := by
  cases l with
  | subject now =>
    cases subjectStep_move h with
    | stay h => subst h; exact le_refl _
    | write line hr hp he hr' hp' hh hd => simp [he]
    | read hr hp he hr' hp' hh hd => obtain ⟨Hint, q, he⟩ := he; simp [he]
    | park hr hp he hr' hp' hh hd => obtain ⟨Hint, he⟩ := he; simp [he]
    | woken hp hs hq he hr' hp' hh hd => unfold Wakes at he; simp [he]
    | thrown hp hh0 hs he hr' hp' hh hd => unfold Wakes at he; simp [he]
    | finish hr hp he hr' hp' hh hd => simp [he]
  | driver now =>
    rw [(driver_frame (driverStep_move h)).2.1]
  | call Input R =>
    simp only [step, pure, Except.pure] at h
    cases h
    rcases callTest_eq c Input R with h | ⟨-, h⟩ <;> rw [h]

theorem ReadCount_run {σ : Type} {S : Subject σ} {ls : List Label} {c c' : Config σ}
    (h : run S ls c = .ok c') : c.engine.ReadCount ≤ c'.engine.ReadCount := by
  induction ls generalizing c with
  | nil => cases h; exact le_refl _
  | cons l ls ih =>
    obtain ⟨c1, h1, h2⟩ := run_cons h
    exact le_trans (ReadCount_step l c c1 h1) (ih h2)

/-- C4: when `IsTesting` is set, `Test` throws `std::logic_error` whatever its arguments, and the
engine, the subject and its thread are as before; when `IsTesting` is clear, `Test` passes its
entry and does not throw `std::logic_error` at any later point of the call. -/
theorem Test_refuses_iff_testing {σ : Type} (S : Subject σ) (c : Config σ) (Input : Str)
    (RestartProcess : Bool) (now : Int) (hd : c.driver = .Test Input RestartProcess) :
    (c.engine.IsTesting = true →
        Test.enter c.engine = (c.engine, .logic_error)
          ∧ driverStep S now c = .ok { c with driver := .logic_error })
      ∧ (c.engine.IsTesting = false →
          (Test.enter c.engine).2 = .testing
            ∧ ∀ sched c', (∀ l ∈ sched, l.isCall = false) → run S sched c = .ok c' →
                c'.driver ≠ .logic_error) := by
  constructor
  · intro hi
    have h1 : Test.enter c.engine = (c.engine, .logic_error) := by simp [Test.enter, hi]
    refine ⟨h1, ?_⟩
    simp only [driverStep, hd, h1]
    rfl
  · intro hi
    refine ⟨by simp [Test.enter, hi], ?_⟩
    intro sched c' hl hrun
    have := run_induction_session
      (fun c : Config σ => c.driver ≠ .logic_error
        ∧ ∀ I R, c.driver = .Test I R → c.engine.IsTesting = false)
      (fun l c c' hl hc h => no_logic_error_step l c c' hl hc h) hl hrun
      ⟨by simp [hd], fun _ _ _ => hi⟩
    exact this.1

/-- C4 at the echo subject in its first wait: with `IsTesting` set the call is refused, with
`IsTesting` clear the session runs to its return. -/
theorem Test_refuses_iff_testing_witness :
    driverStep echo 2
        { echoWaiting "x".toList true with
            engine := { (echoWaiting "x".toList true).engine with IsTesting := true } }
      = .ok { echoWaiting "x".toList true with
                engine := { (echoWaiting "x".toList true).engine with IsTesting := true },
                driver := .logic_error }
      ∧ ∃ c', run echo echoSchedule (echoWaiting "x".toList false) = .ok c'
          ∧ c'.driver ≠ .logic_error :=
  ⟨((Test_refuses_iff_testing echo _ "x".toList true 2 rfl).1 rfl).2,
   _, rfl, ((Test_refuses_iff_testing echo (echoWaiting "x".toList false) "x".toList false 2
      rfl).2 rfl).2 echoSchedule _ (by decide) rfl⟩

/-- C1, as the code has it: whenever `Test` has returned a result, `IsTesting` is still set, and
the next call of `Test` throws `std::logic_error`. -/
theorem Test_leaves_IsTesting_set {σ : Type} (S : Subject σ) (c c' : Config σ)
    (sched : List Label) (Input Input2 : Str) (RestartProcess : Bool) (result : TestResult)
    (now : Int) (hd : c.driver = .Test Input RestartProcess)
    (hrun : run S sched c = .ok c') (hret : c'.driver = .returned result) :
    c'.engine.IsTesting = true
      ∧ step S (.call Input2 false) c' = .ok { c' with driver := .Test Input2 false }
      ∧ driverStep S now { c' with driver := .Test Input2 false }
          = .ok { c' with driver := .logic_error } := by
  have h := run_induction
    (fun c : Config σ => c.engine.IsTesting = true ∨ c.driver.preSession = true)
    (fun l c c' hc h => IsTesting_step l c c' hc h) hrun (Or.inr (by simp [hd, Pc.preSession]))
  have hi : c'.engine.IsTesting = true := by
    rcases h with h | h
    · exact h
    · simp [hret, Pc.preSession] at h
  refine ⟨hi, ?_, ?_⟩
  · simp [step, callTest, hret, pure, Except.pure]
  · simp [driverStep, Test.enter, hi, pure, Except.pure]

/-- C1 at the echo subject, which the constructor has started and which is in its first wait:
`Test("x", false)` returns, `IsTesting` is set, and `Test("y", false)` is refused. -/
theorem Test_leaves_IsTesting_set_witness :
    ∃ c' result, run echo [.driver 0, .driver 0, .subject 1, .call "x".toList false]
          (Config.constructed .over) = .ok (echoWaiting "x".toList false)
      ∧ run echo echoSchedule (echoWaiting "x".toList false) = .ok c'
      ∧ c'.driver = .returned result
      ∧ result.GetAllLines = "you said: x\n\n".toList
      ∧ c'.engine.IsTesting = true
      ∧ driverStep echo 10 { c' with driver := .Test "y".toList false }
          = .ok { c' with driver := .logic_error } := by
  refine ⟨_, _, rfl, rfl, rfl, by decide, ?_, ?_⟩
  · exact (Test_leaves_IsTesting_set echo (echoWaiting "x".toList false) _ echoSchedule "x".toList
      "y".toList false _ 10 rfl rfl rfl).1
  · exact (Test_leaves_IsTesting_set echo (echoWaiting "x".toList false) _ echoSchedule "x".toList
      "y".toList false _ 10 rfl rfl rfl).2.2

/-- C2, as the code has it: once the `Terminate()` of a restart has set `ShouldTerminate`, it
stays set in every later state, so after `Start()` as well; and in every such state in which
the queue is empty, `ReadLine` goes into its wait, and the wait ends by throwing
`TerminateException`, at once with the queue still empty, and just as well after input `q` has
been put in the queue. -/
theorem restart_leaves_ShouldTerminate_set {σ : Type} (S : Subject σ) (c c1 c' : Config σ)
    (sched : List Label) (Input Hint q : Str) (now : Int)
    (hd : c.driver = .Terminate Input) (hr : c.engine.IsProcessRunning = true)
    (h1 : driverStep S now c = .ok c1) (hrun : run S sched c1 = .ok c') :
    c1.engine.ShouldTerminate = true
      ∧ c'.engine.ShouldTerminate = true
      ∧ (c'.engine.ReadQueue = [] → c'.engine.ReadCount + 1 < INT_MAX →
          ReadLine c'.engine Hint
              = .ok ({ c'.engine with LastHint := Hint, WaitingToRead := true,
                                      ReadCount := c'.engine.ReadCount + 1 }, .parked)
            ∧ wake { c'.engine with LastHint := Hint, WaitingToRead := true,
                                    ReadCount := c'.engine.ReadCount + 1, ReadQueue := q }
              = .ok ({ c'.engine with LastHint := Hint, WaitingToRead := false,
                                      ReadCount := c'.engine.ReadCount + 1 + 1,
                                      ReadQueue := q }, .thrown)) := by
  have hs1 : c1.engine.ShouldTerminate = true := by
    simp only [driverStep, hd, pure, Except.pure] at h1
    cases h1
    unfold Terminate
    by_cases hs : c.engine.ShouldTerminate = true
    · simp [hs]
    · simp [hs, hr]
  have hs' : c'.engine.ShouldTerminate = true :=
    run_induction (fun c : Config σ => c.engine.ShouldTerminate = true)
      (fun l c c' hc h => ShouldTerminate_step l c c' hc h) hrun hs1
  refine ⟨hs1, hs', ?_⟩
  intro hq hn
  have hn' : c'.engine.ReadCount < INT_MAX := by omega
  constructor
  · simp [ReadLine, hq, park, increment, hn', bind, Except.bind, pure, Except.pure]
  · simp [wake, readable, hs', increment, hn, bind, Except.bind, pure, Except.pure]

/-- C2 at the echo subject in its first wait and `Test("y", true)`: after the restart the new
subject is in user code with `ShouldTerminate` set, its first `ReadLine` throws, and `Test`
returns no line while `"y\n"` is still in the queue. -/
theorem restart_leaves_ShouldTerminate_set_witness :
    ∃ c1 c', driverStep echo 2 (echoTerminating "y".toList) = .ok c1
      ∧ run echo [.subject 3, .subject 4, .driver 5, .driver 6] c1 = .ok c'
      ∧ c'.driver = .wait1 "y".toList ∧ c'.running = true ∧ c'.inHook = false
      ∧ c'.engine.ReadQueue = [] ∧ c'.engine.ShouldTerminate = true
      ∧ (wake { c'.engine with LastHint := [], WaitingToRead := true,
                               ReadCount := c'.engine.ReadCount + 1,
                               ReadQueue := "y\n".toList }).toOption.map Prod.snd
          = some .thrown
      ∧ step echo (.driver 1) (echoWaiting "y".toList true) = .ok (echoTerminating "y".toList)
      ∧ outcome (run echo restartSchedule (echoTerminating "y".toList))
          = some (.returned ⟨[]⟩, true, true, false, "y\n".toList) := by
  refine ⟨_, _, rfl, rfl, rfl, rfl, rfl, rfl, ?_, ?_, rfl, by decide⟩
  · exact (restart_leaves_ShouldTerminate_set echo (echoTerminating "y".toList) _ _
      [.subject 3, .subject 4, .driver 5, .driver 6] "y".toList [] [] 2 rfl rfl rfl rfl).2.1
  · rw [((restart_leaves_ShouldTerminate_set echo (echoTerminating "y".toList) _ _
      [.subject 3, .subject 4, .driver 5, .driver 6] "y".toList [] "y\n".toList 2 rfl rfl rfl
      rfl).2.2 rfl (by decide)).2]
    rfl

/-- C9: along every execution from the constructor (`WaitingToRead` false, `ReadCount` 0), a step
leaves `WaitingToRead` and `ReadCount` alone or flips `WaitingToRead` and adds exactly one to
`ReadCount`, the flag being set exactly while the subject is in the wait of a read, whether the
wait ends with input or with `TerminateException`; `ReadCount` never decreases; and a `ReadLine`
or `ReadWord` that returns without a wait leaves `WaitingToRead` and `ReadCount` as they were.
The same holds of a step from every configuration in which the flags agree with the thread,
reached from the constructor or not, so also with the subject in the wait of `ReadWord`.  And of
the wait-for-input blocks themselves, on every engine: going into the wait (`park`, and with it
`ReadWord.loop` and `ReadLine` on an empty queue) sets `WaitingToRead`, adds one to `ReadCount`
and changes nothing else but `LastHint`; `ReadWord` and `ReadWord.resume` are `ReadWord.loop`
after the skipping of whitespace; `ReadWord.loop` on a queue that is not empty, and
`ReadLine.resume`, change `ReadQueue` only; the end of the wait (`wake`) clears `WaitingToRead`
and adds one to `ReadCount`, with the throw when `ShouldTerminate` is set, and while the
predicate of the wait is false nothing changes.  (`ReadCount++` at `INT_MAX` is undefined
behaviour: such a step is a `Fault`, not a step.) -/
theorem epoch_discipline {σ : Type} (S : Subject σ) (object : σ) (sched more : List Label)
    (l : Label) (c c' c'' d d' : Config σ) (e e' : Engine) (Hint s q : Str) :
    (run S sched (Config.constructed object) = .ok c → step S l c = .ok c' →
        ((c'.engine.WaitingToRead = c.engine.WaitingToRead
            ∧ c'.engine.ReadCount = c.engine.ReadCount)
          ∨ (c'.engine.WaitingToRead = !c.engine.WaitingToRead
            ∧ c'.engine.ReadCount = c.engine.ReadCount + 1))
        ∧ c.engine.WaitingToRead = c.parked ∧ c'.engine.WaitingToRead = c'.parked
        ∧ 0 ≤ c.engine.ReadCount ∧ c.engine.ReadCount ≤ c'.engine.ReadCount)
      ∧ (run S more c = .ok c'' → c.engine.ReadCount ≤ c''.engine.ReadCount)
      ∧ (ReadLine e Hint = .ok (e', .returned s) →
          e'.WaitingToRead = e.WaitingToRead ∧ e'.ReadCount = e.ReadCount)
      ∧ (ReadWord e Hint = .ok (e', .returned s) →
          e'.WaitingToRead = e.WaitingToRead ∧ e'.ReadCount = e.ReadCount)
      ∧ (Consistent d → step S l d = .ok d' →
          ((d'.engine.WaitingToRead = d.engine.WaitingToRead
              ∧ d'.engine.ReadCount = d.engine.ReadCount)
            ∨ (d'.engine.WaitingToRead = !d.engine.WaitingToRead
              ∧ d'.engine.ReadCount = d.engine.ReadCount + 1))
          ∧ d.engine.WaitingToRead = d.parked ∧ d'.engine.WaitingToRead = d'.parked)
      ∧ (e.ReadCount < INT_MAX →
          park e = .ok { e with WaitingToRead := true, ReadCount := e.ReadCount + 1 })
      ∧ (INT_MAX ≤ e.ReadCount → park e = .error .signedOverflow)
      ∧ (e.ReadQueue = [] → e.ReadCount < INT_MAX →
          ReadWord.loop e
              = .ok ({ e with WaitingToRead := true, ReadCount := e.ReadCount + 1 }, .parked)
            ∧ ReadLine e Hint
              = .ok ({ e with LastHint := Hint, WaitingToRead := true,
                              ReadCount := e.ReadCount + 1 }, .parked))
      ∧ (e.ReadQueue ≠ [] →
          ReadWord.loop e
              = .ok ({ e with ReadQueue := (wordLoop e.ReadQueue []).2 },
                     .returned (wordLoop e.ReadQueue []).1)
            ∧ ReadLine.resume e
              = ({ e with ReadQueue := (lineLoop e.ReadQueue []).2 },
                 (lineLoop e.ReadQueue []).1))
      ∧ (skipSpaces e.ReadQueue = .ok q →
          ReadWord e Hint = ReadWord.loop { e with LastHint := Hint, ReadQueue := q }
            ∧ ReadWord.resume e = ReadWord.loop { e with ReadQueue := q })
      ∧ (readable e = true → e.ReadCount < INT_MAX →
          wake e
            = .ok ({ e with WaitingToRead := false, ReadCount := e.ReadCount + 1 },
                   if e.ShouldTerminate then .thrown else .woken))
      ∧ (readable e = false → wake e = .ok (e, .blocked)) := by
  refine ⟨?_, ReadCount_run, ?_, ?_, ?_, ?_, ?_, ?_, ?_, ?_, ?_, ?_⟩
  · intro hrun hstep
    have hc : Consistent c :=
      run_induction Consistent (fun l c c' hc h => consistent_step l c c' hc h) hrun
        (consistent_constructed object)
    have hc' := consistent_step l c c' hc hstep
    exact ⟨handshake_step l c c' hc hstep, hc.waiting, hc'.waiting, ReadCount_run hrun,
      ReadCount_step l c c' hstep⟩
  · intro h
    rcases ReadLine_ok h with ⟨h, -⟩ | ⟨-, Hint, q, h⟩
    · cases h
    · simp [h]
  · intro h
    rcases ReadWord_ok h with ⟨h, -⟩ | ⟨-, Hint, q, h⟩
    · cases h
    · simp [h]
  · intro hd hstep
    exact ⟨handshake_step l d d' hd hstep, hd.waiting, (consistent_step l d d' hd hstep).waiting⟩
  · intro hn
    simp [park, increment, hn, bind, Except.bind, pure, Except.pure]
  · intro hn
    have : ¬ e.ReadCount < INT_MAX := by omega
    simp [park, increment, this, bind, Except.bind]
  · intro hq hn
    constructor
    · simp [ReadWord.loop, hq, park, increment, hn, bind, Except.bind, pure, Except.pure]
    · simp [ReadLine, hq, park, increment, hn, bind, Except.bind, pure, Except.pure]
  · intro hq
    have hne : e.ReadQueue.isEmpty = false := by
      cases hl : e.ReadQueue with
      | nil => exact absurd hl hq
      | cons a l => rfl
    constructor
    · simp [ReadWord.loop, hne, pure, Except.pure]
    · rfl
  · intro hs
    constructor
    · simp [ReadWord, hs, bind, Except.bind]
    · simp [ReadWord.resume, hs, bind, Except.bind]
  · intro hr hn
    cases hs : e.ShouldTerminate <;>
      simp [wake, hr, hs, increment, hn, bind, Except.bind, pure, Except.pure]
  · intro hr
    simp [wake, hr, pure, Except.pure]

/-- C9 at the echo subject: after the constructor its first `ReadLine` sets `WaitingToRead` and
takes `ReadCount` from 0 to 1; once `"x\n"` is in the queue the wait ends, `WaitingToRead` is
cleared and `ReadCount` is 2.  And at the wait-for-input block of `ReadWord`: on the engine of
the constructor `ReadWord.loop` sets `WaitingToRead` and takes `ReadCount` from 0 to 1; with
`"7\n"` in the queue the wait ends, `WaitingToRead` is cleared and `ReadCount` is 2, and with
`ShouldTerminate` set instead it ends the same way with the throw; the subject that is in the
wait of `ReadWord` takes that step, and then `ReadWord` returns `"7"`. -/
theorem epoch_discipline_witness :
    ∃ c c' d d', run echo [.driver 0, .driver 0] (Config.constructed .over) = .ok c
      ∧ step echo (.subject 1) c = .ok c'
      ∧ c.engine.WaitingToRead = false ∧ c.engine.ReadCount = 0
      ∧ c'.engine.WaitingToRead = true ∧ c'.engine.ReadCount = 1
      ∧ run echo [.driver 0, .driver 0, .subject 1, .call "x".toList false, .driver 2,
          .driver 3, .driver 4] (Config.constructed .over) = .ok d
      ∧ step echo (.subject 5) d = .ok d'
      ∧ ((d'.engine.WaitingToRead = d.engine.WaitingToRead
            ∧ d'.engine.ReadCount = d.engine.ReadCount)
          ∨ (d'.engine.WaitingToRead = !d.engine.WaitingToRead
            ∧ d'.engine.ReadCount = d.engine.ReadCount + 1))
      ∧ d'.engine.WaitingToRead = false ∧ d'.engine.ReadCount = 2
      ∧ ReadWord.loop Engine.constructed
          = .ok ({ Engine.constructed with WaitingToRead := true, ReadCount := 1 }, .parked)
      ∧ wake { Engine.constructed with WaitingToRead := true, ReadCount := 1,
                                       ReadQueue := "7\n".toList }
          = .ok ({ Engine.constructed with WaitingToRead := false, ReadCount := 2,
                                           ReadQueue := "7\n".toList }, .woken)
      ∧ wake { Engine.constructed with WaitingToRead := true, ReadCount := 1,
                                       ShouldTerminate := true }
          = .ok ({ Engine.constructed with WaitingToRead := false, ReadCount := 2,
                                           ShouldTerminate := true }, .thrown)
      ∧ wake { Engine.constructed with WaitingToRead := true, ReadCount := 1 }
          = .ok ({ Engine.constructed with WaitingToRead := true, ReadCount := 1 }, .blocked)
      ∧ ∃ w w', Consistent (wordsWaiting "7\n".toList)
        ∧ step words (.subject 1) (wordsWaiting "7\n".toList) = .ok w
        ∧ w.engine.WaitingToRead = false ∧ w.engine.ReadCount = 2
        ∧ ((w.engine.WaitingToRead = (wordsWaiting "7\n".toList).engine.WaitingToRead
              ∧ w.engine.ReadCount = (wordsWaiting "7\n".toList).engine.ReadCount)
            ∨ (w.engine.WaitingToRead = !(wordsWaiting "7\n".toList).engine.WaitingToRead
              ∧ w.engine.ReadCount = (wordsWaiting "7\n".toList).engine.ReadCount + 1))
        ∧ step words (.subject 2) w = .ok w'
        ∧ w'.object = .writing "7".toList
        ∧ w'.engine.WaitingToRead = false ∧ w'.engine.ReadCount = 2 := by
  have hw : Consistent (wordsWaiting "7\n".toList) :=
    ⟨rfl, rfl, by simp [Config.inHook, wordsWaiting], Or.inr rfl⟩
  refine ⟨_, _, _, _, rfl, rfl, rfl, rfl, rfl, rfl, rfl, rfl, ?_, rfl, rfl, ?_, ?_, ?_, ?_,
    _, _, hw, rfl, rfl, rfl, ?_, rfl, rfl, rfl, rfl⟩
  · exact ((epoch_discipline echo .over
      [.driver 0, .driver 0, .subject 1, .call "x".toList false, .driver 2, .driver 3, .driver 4]
      [] (.subject 5) _ _ (Config.constructed .over) (Config.constructed .over)
      (Config.constructed .over) Engine.constructed Engine.constructed [] [] []).1 rfl rfl).1
  · exact ((epoch_discipline echo .over [] [] (.subject 5) (Config.constructed .over)
      (Config.constructed .over) (Config.constructed .over) (Config.constructed .over)
      (Config.constructed .over) Engine.constructed Engine.constructed [] [] []).2.2.2.2.2.2.2.1
      rfl (by decide)).1
  · exact (epoch_discipline echo .over [] [] (.subject 5) (Config.constructed .over)
      (Config.constructed .over) (Config.constructed .over) (Config.constructed .over)
      (Config.constructed .over)
      { Engine.constructed with WaitingToRead := true, ReadCount := 1,
                                ReadQueue := "7\n".toList }
      Engine.constructed [] [] []).2.2.2.2.2.2.2.2.2.2.1 rfl (by decide)
  · exact (epoch_discipline echo .over [] [] (.subject 5) (Config.constructed .over)
      (Config.constructed .over) (Config.constructed .over) (Config.constructed .over)
      (Config.constructed .over)
      { Engine.constructed with WaitingToRead := true, ReadCount := 1,
                                ShouldTerminate := true }
      Engine.constructed [] [] []).2.2.2.2.2.2.2.2.2.2.1 rfl (by decide)
  · exact (epoch_discipline echo .over [] [] (.subject 5) (Config.constructed .over)
      (Config.constructed .over) (Config.constructed .over) (Config.constructed .over)
      (Config.constructed .over)
      { Engine.constructed with WaitingToRead := true, ReadCount := 1 }
      Engine.constructed [] [] []).2.2.2.2.2.2.2.2.2.2.2 rfl
  · exact ((epoch_discipline words .reading [] [] (.subject 1) (Config.constructed .reading)
      (Config.constructed .reading) (Config.constructed .reading) (wordsWaiting "7\n".toList) _
      Engine.constructed Engine.constructed [] [] []).2.2.2.2.1 hw rfl).1

/-! ## The observer -/

theorem see_nil (s : Session) (e : Engine) :
    s.see [] e = { s with quiet := s.quiet || Test.done e s.c } := by
  unfold Session.see
  cases hq : s.quiet <;> simp [hq]

theorem observe_subject_same {σ : Type} (now : Int) (c c' : Config σ) (m : Monitor)
    (h : c'.engine.WriteQueue = c.engine.WriteQueue) :
    observe (.subject now) c c' m
      = ⟨m.produced, m.session.map (fun s => { s with quiet := s.quiet || Test.done c'.engine s.c })⟩ := by
  simp [observe, h, number, see_nil]

theorem observe_subject_write {σ : Type} (now : Int) (c c' : Config σ) (m : Monitor)
    (line : Line) (h : c'.engine.WriteQueue = c.engine.WriteQueue ++ [line]) :
    observe (.subject now) c c' m
      = ⟨m.produced + 1, m.session.map (fun s => s.see [(m.produced, line)] c'.engine)⟩ := by
  simp [observe, h, number]

theorem observe_driver_other {σ : Type} (now : Int) (c c' : Config σ) (m : Monitor)
    (h : ∀ I n, c'.driver ≠ .ResetStartTime I n) : observe (.driver now) c c' m = m := by
  unfold observe
  cases hd : c.driver <;> cases hd' : c'.driver <;> simp_all

theorem observe_driver_reset {σ : Type} (now : Int) (c c' : Config σ) (m : Monitor)
    (I : Str) (n : Int) (h : c.driver = .ResetStartTime I n) :
    observe (.driver now) c c' m = m := by
  unfold observe
  simp [h]

theorem observe_driver_record {σ : Type} (now : Int) (c c' : Config σ) (m : Monitor)
    (I : Str) (n : Int) (h : ∀ I n, c.driver ≠ .ResetStartTime I n)
    (h' : c'.driver = .ResetStartTime I n) :
    observe (.driver now) c c' m
      = { m with session := some ⟨n, m.produced, [], Test.done c'.engine n, []⟩ } := by
  unfold observe
  cases hd : c.driver <;> simp_all

theorem setup_collecting {p : Pc} (h : p.setup = true) :
    p.collecting = none ∧ (∀ r, p ≠ .returned r) ∧ (∀ I n, p ≠ .ResetStartTime I n) := by
  cases p <;> simp [Pc.setup, Pc.collecting] at h ⊢

/-! ## Before a session -/

theorem before_subject {σ : Type} {c c' : Config σ} (hb : Before c) (h : SubjectMove c c') :
    Before c' ∧ c'.engine.WriteQueue.length - c.engine.WriteQueue.length ≤ 1 := by
  obtain ⟨b1, b2, b3⟩ := hb
  cases h with
  | stay h => subst h; exact ⟨⟨b1, b2, b3⟩, by simp⟩
  | write line hr hp he hr' hp' hh hd =>
    exact ⟨⟨by rw [hd]; exact b1, by rw [hd]; exact b2, by simp [hp']⟩, by simp [he]⟩
  | read hr hp he hr' hp' hh hd =>
    obtain ⟨Hint, q, he⟩ := he
    exact ⟨⟨by rw [hd]; exact b1, by rw [hd]; exact b2, by simp [hp']⟩, by simp [he]⟩
  | park hr hp he hr' hp' hh hd =>
    obtain ⟨Hint, he⟩ := he
    exact ⟨⟨by rw [hd]; exact b1, by rw [hd]; exact b2, by simp [he]⟩, by simp [he]⟩
  | woken hp hs hq he hr' hp' hh hd =>
    unfold Wakes at he
    exact ⟨⟨by rw [hd]; exact b1, by rw [hd]; exact b2, by simp [hp']⟩, by simp [he]⟩
  | thrown hp hh0 hs he hr' hp' hh hd =>
    unfold Wakes at he
    exact ⟨⟨by rw [hd]; exact b1, by rw [hd]; exact b2, by simp [hp']⟩, by simp [he]⟩
  | finish hr hp he hr' hp' hh hd =>
    exact ⟨⟨by rw [hd]; exact b1, by rw [hd]; exact b2, by simp [hp']⟩, by simp [he]⟩

/-- The session that the end of the first wait of `Test` opens. -/
theorem collecting_record {σ : Type} {c c' : Config σ} (hc : Consistent c) (hb : Before c)
    (hr : Test.ready c.engine = true) (ht : c'.ProcessThread = c.ProcessThread)
    (hw : c'.engine.WriteQueue = [])
    (h1 : c'.engine.WaitingToRead = c.engine.WaitingToRead)
    (h2 : c'.engine.ReadCount = c.engine.ReadCount)
    (h3 : c'.engine.IsProcessRunning = c.engine.IsProcessRunning)
    (h4 : c'.engine.ShouldTerminate = c.engine.ShouldTerminate)
    (h5 : c'.engine.ReadQueue = c.engine.ReadQueue) (produced : Nat) :
    Collecting c' ⟨c.engine.ReadCount, produced, [], Test.done c'.engine c.engine.ReadCount, []⟩
      c.engine.ReadCount false := by
  obtain ⟨f1, f2, f3⟩ := flags_of_thread ht
  obtain ⟨g1, g2, g3, g4⟩ := hc
  obtain ⟨b1, b2, b3⟩ := hb
  have hd : Test.done c'.engine c.engine.ReadCount = !c.running := by
    simp [Test.done, h1, h2, h3, g1]
  refine ⟨rfl, by simp [hw], rfl, by simp, ?_, ?_⟩
  · simp only [hd, f1]
    intro h
    left
    simpa using h
  · intro hrun
    rw [f1] at hrun
    have hpk : c.parked = true := by
      simp [Test.ready, g1, g2, hrun] at hr
      exact hr
    cases hh : c.inHook with
    | true => right; left; rw [f3]; exact hh
    | false =>
      left
      refine ⟨by rw [f2]; exact hpk, by rw [f3]; exact hh, h2, by simp [hd, hrun], ?_⟩
      intro _ hs
      rw [h5]
      rw [h4] at hs
      exact b3 hpk hs

theorem before_driver {σ : Type} {c c' : Config σ} (now : Int) (m : Monitor)
    (hc : Consistent c) (hb : Before c) (hm : m.session = none) (h : DriverMove c c') :
    match (observe (.driver now) c c' m).session with
    | none => Before c'
    | some s =>
      Numbered (observe (.driver now) c c' m).produced s ∧
        match c'.driver.collecting with
        | some (n, input) => Collecting c' s n input
        | none => Collected c' s := by
  have hnr : ∀ I n, c.driver ≠ .ResetStartTime I n := by
    intro I n hd
    have := hb.setup
    simp [hd, Pc.collecting] at this
  have plumbing : ∀ (hs' : c'.driver.setup = true)
      (hq : c'.parked = true → c'.engine.ShouldTerminate = false → c'.engine.ReadQueue = []),
      (match (observe (.driver now) c c' m).session with
      | none => Before c'
      | some s =>
        Numbered (observe (.driver now) c c' m).produced s ∧
          match c'.driver.collecting with
          | some (n, input) => Collecting c' s n input
          | none => Collected c' s) := by
    intro hs' hq
    obtain ⟨k1, k2, k3⟩ := setup_collecting hs'
    rw [observe_driver_other now c c' m k3, hm]
    exact ⟨k1, k2, hq⟩
  obtain ⟨b1, b2, b3⟩ := hb
  cases h with
  | stay h =>
    subst h
    rw [observe_driver_other now _ _ m hnr, hm]
    exact ⟨b1, b2, b3⟩
  | construct now' hd hd' he ht =>
    obtain ⟨f1, f2, f3⟩ := flags_of_thread ht
    exact plumbing (by simp [hd', Pc.setup]) (by simp_all)
  | refuse Input R hd hi hd' he ht =>
    obtain ⟨f1, f2, f3⟩ := flags_of_thread ht
    rw [observe_driver_other now c c' m (by simp [hd']), hm]
    exact ⟨by simp [hd', Pc.collecting], by simp [hd'], by simp_all⟩
  | enter Input R hd hi hs' hp' he ht =>
    obtain ⟨f1, f2, f3⟩ := flags_of_thread ht
    exact plumbing hs' (by simp_all)
  | enterRecord Input hd hi hr hd' he ht =>
    rw [observe_driver_record now c c' m Input _ hnr hd']
    simp only [hd', Pc.collecting]
    exact ⟨⟨rfl, by simp⟩,
      collecting_record hc ⟨b1, b2, b3⟩ hr ht (by simp [he]) (by simp [he]) (by simp [he])
        (by simp [he]) (by simp [he]) (by simp [he]) m.produced⟩
  | pass hs hs' hp he ht =>
    obtain ⟨f1, f2, f3⟩ := flags_of_thread ht
    exact plumbing hs' (by simp_all)
  | request hs hs' hp hr hst he ht =>
    exact plumbing hs' (by simp [he])
  | joined hs hs' hp t hT hal hT' he =>
    exact plumbing hs' (by simp [Config.parked, hT'])
  | clear hs hs' hp hr he ht =>
    exact plumbing hs' (by simp [he])
  | spawn hs hs' hp hr hT hT' he =>
    exact plumbing hs' (by simp [Config.parked, hT', Thread.parked])
  | record Input hd hr hd' he ht =>
    rw [observe_driver_record now c c' m Input _ hnr hd']
    simp only [hd', Pc.collecting]
    exact ⟨⟨rfl, by simp⟩,
      collecting_record hc ⟨b1, b2, b3⟩ hr ht (by simp [he]) (by simp [he]) (by simp [he])
        (by simp [he]) (by simp [he]) (by simp [he]) m.produced⟩
  | reset now' Input n hd hd' he ht => simp [hd, Pc.collecting] at b1
  | input Input n hd hd' he ht => simp [hd, Pc.collecting] at b1
  | collect n hd hdone hd' he ht => simp [hd, Pc.collecting] at b1

/-! ## During a session -/

theorem done_eq {σ : Type} {c : Config σ} (hc : Consistent c) (n : Int) :
    Test.done c.engine n = ((c.parked && n != c.engine.ReadCount) || !c.running) := by
  simp [Test.done, hc.running, hc.waiting]

theorem see_quiet (s : Session) (e : Engine) (h : Test.done e s.c = true → s.quiet = true) :
    ({ s with quiet := s.quiet || Test.done e s.c } : Session) = s := by
  cases hd : Test.done e s.c
  · simp
  · have := h hd
    cases s
    simp_all

/-- A subject that is running and not in a wait has not been seen quiet. -/
theorem collecting_active {σ : Type} {c : Config σ} {s : Session} {n : Int} {input : Bool}
    (hk : Collecting c s n input) (hr : c.running = true) (hp : c.parked = false) :
    s.quiet = false
      ∧ (c.inHook = true
        ∨ (c.inHook = false ∧ c.engine.ShouldTerminate = false ∧ input = true)) := by
  constructor
  · cases hq : s.quiet with
    | false => rfl
    | true => rcases hk.still hq with h | h <;> simp_all
  · rcases hk.thread hr with ⟨h, -⟩ | h | ⟨h1, h2, h3, -⟩
    · simp_all
    · exact Or.inl h
    · exact Or.inr ⟨h1, h2, h3⟩

/-- The session after a step in which the subject ran without a wait before or after. -/
theorem collecting_runs {σ : Type} {c c' : Config σ} {s : Session} {n : Int} {input : Bool}
    (hc' : Consistent c') (hk : Collecting c s n input) (hr : c.running = true)
    (hp : c.parked = false) (hr' : c'.running = true) (hp' : c'.parked = false)
    (hh : c'.inHook = c.inHook)
    (hs : c'.engine.ShouldTerminate = c.engine.ShouldTerminate)
    (new : List (Nat × Line))
    (hw : c'.engine.WriteQueue = c.engine.WriteQueue ++ new.map Prod.snd) :
    Collecting c' { s with appended := s.appended ++ new, quiet := false } n input := by
  obtain ⟨hq, hm⟩ := collecting_active hk hr hp
  refine ⟨hk.epoch, by simp [hw, hk.queue], hk.late, ?_, by simp, ?_⟩
  · rw [done_eq hc']; simp [hr', hp']
  · intro _
    rcases hm with h | ⟨h1, h2, h3⟩
    · right; left; rw [hh]; exact h
    · right; right; exact ⟨by rw [hh]; exact h1, by rw [hs]; exact h2, h3, by simp [hp']⟩

theorem collecting_subject {σ : Type} {c c' : Config σ} (now : Int) (produced : Nat)
    (s : Session) (n : Int) (input : Bool) (hc : Consistent c) (hn : Numbered produced s)
    (hk : Collecting c s n input) (h : SubjectMove c c') :
    ∃ s' p', observe (.subject now) c c' ⟨produced, some s⟩ = ⟨p', some s'⟩
      ∧ Numbered p' s' ∧ Collecting c' s' n input := by
  have hc' := consistent_subject hc h
  have hdone' := done_eq hc' n
  have hsc := hk.epoch
  cases h with
  | stay h =>
    subst h
    refine ⟨s, produced, ?_, hn, hk⟩
    rw [observe_subject_same now _ _ _ rfl]
    simp only [Option.map]
    rw [see_quiet s _ (by rw [hsc]; exact hk.quiet)]
  | write line hr hp he hr' hp' hh hd =>
    obtain ⟨hq, -⟩ := collecting_active hk hr hp
    have hk' := collecting_runs hc' hk hr hp hr' hp' hh (by simp [he]) [(produced, line)]
      (by simp [he])
    refine ⟨_, produced + 1, ?_, ?_, hk'⟩
    · rw [observe_subject_write now c c' _ line (by simp [he])]
      simp only [Option.map, Session.see, hq, hsc]
      simp
      rw [hdone']
      simp [hr', hp']
    · constructor
      · simp [hn.serial, List.range'_concat, hn.total]
      · simp [hn.total, Nat.add_assoc]
  | read hr hp he hr' hp' hh hd =>
    obtain ⟨Hint, q, he⟩ := he
    obtain ⟨hq, -⟩ := collecting_active hk hr hp
    have hk' := collecting_runs hc' hk hr hp hr' hp' hh (by simp [he]) [] (by simp [he])
    have hs' : ({ s with appended := s.appended ++ [], quiet := false } : Session) = s := by
      cases s; simp_all
    rw [hs'] at hk'
    refine ⟨s, produced, ?_, hn, hk'⟩
    rw [observe_subject_same now c c' _ (by simp [he])]
    simp only [Option.map, hsc, hdone', hr', hp', hq]
    simp
    cases s; simp_all
  | woken hp hs hq he hr' hp' hh hd =>
    unfold Wakes at he
    have hr := parked_running hp
    have hT : c.inHook = false ∧ s.quiet = false ∧ input = true := by
      rcases hk.thread hr with ⟨-, h2, -, h4, h5⟩ | h | ⟨-, -, -, h4⟩
      · refine ⟨h2, h4, ?_⟩
        cases input with
        | true => rfl
        | false => exact absurd (h5 rfl hs) hq
      · rw [hc.hook h] at hs; cases hs
      · exact absurd (h4 hp) hq
    obtain ⟨t1, t2, t3⟩ := hT
    refine ⟨s, produced, ?_, hn, ⟨hsc, by simp [he, hk.queue], hk.late, ?_, ?_, ?_⟩⟩
    · rw [observe_subject_same now c c' _ (by simp [he])]
      simp only [Option.map, hsc, hdone', hr', hp', t2]
      simp
      cases s; simp_all
    · rw [hdone']; simp [hr', hp']
    · simp [t2]
    · intro _
      right; right
      exact ⟨by rw [hh]; exact t1, by simp [he, hs], t3, by simp [hp']⟩
  | thrown hp hh0 hs he hr' hp' hh hd =>
    unfold Wakes at he
    have hr := parked_running hp
    have t2 : s.quiet = false := by
      rcases hk.thread hr with ⟨-, -, -, h4, -⟩ | h | ⟨-, h2, -⟩
      · exact h4
      · rw [hh0] at h; cases h
      · rw [hs] at h2; cases h2
    refine ⟨s, produced, ?_, hn, ⟨hsc, by simp [he, hk.queue], hk.late, ?_, ?_, ?_⟩⟩
    · rw [observe_subject_same now c c' _ (by simp [he])]
      simp only [Option.map, hsc, hdone', hr', hp', t2]
      simp
      cases s; simp_all
    · rw [hdone']; simp [hr', hp']
    · simp [t2]
    · intro _
      right; left
      exact hh
  | park hr hp he hr' hp' hh hd =>
    obtain ⟨Hint, he⟩ := he
    obtain ⟨hq, hm⟩ := collecting_active hk hr hp
    refine ⟨{ s with quiet := Test.done c'.engine n }, produced, ?_, ⟨hn.serial, hn.total⟩,
      ⟨hsc, by simp [he, hk.queue], hk.late, by simp, ?_, ?_⟩⟩
    · rw [observe_subject_same now c c' _ (by simp [he])]
      simp only [Option.map, hsc, hq]
      simp
    · intro _
      right; exact hp'
    · intro _
      rcases hm with h | ⟨h1, h2, h3⟩
      · right; left; rw [hh]; exact h
      · right; right
        exact ⟨by rw [hh]; exact h1, by simp [he, h2], h3, by simp [he]⟩
  | finish hr hp he hr' hp' hh hd =>
    obtain ⟨hq, hm⟩ := collecting_active hk hr hp
    refine ⟨{ s with quiet := Test.done c'.engine n }, produced, ?_, ⟨hn.serial, hn.total⟩,
      ⟨hsc, by simp [he, hk.queue], hk.late, by simp, ?_, ?_⟩⟩
    · rw [observe_subject_same now c c' _ (by simp [he])]
      simp only [Option.map, hsc, hq]
      simp
    · intro _
      left; exact hr'
    · intro h
      rw [hr'] at h; cases h

theorem collecting_driver {σ : Type} {c c' : Config σ} (now : Int) (produced : Nat)
    (s : Session) (n : Int) (input : Bool) (hc : Consistent c)
    (hcol : c.driver.collecting = some (n, input)) (hk : Collecting c s n input)
    (h : DriverMove c c') :
    observe (.driver now) c c' ⟨produced, some s⟩ = ⟨produced, some s⟩
      ∧ match c'.driver.collecting with
        | some (n', input') => Collecting c' s n' input'
        | none => Collected c' s := by
  have nosetup : c.driver.setup = true → False := by
    intro hs
    rw [(setup_collecting hs).1] at hcol
    cases hcol
  cases h with
  | stay h =>
    subst h
    constructor
    · cases hd : c'.driver <;> simp [hd, Pc.collecting] at hcol <;> simp [observe, hd]
    · rw [hcol]; exact hk
  | construct now' hd hd' he ht => simp [hd, Pc.collecting] at hcol
  | refuse Input R hd hi hd' he ht => simp [hd, Pc.collecting] at hcol
  | enter Input R hd hi hs' hp' he ht => simp [hd, Pc.collecting] at hcol
  | enterRecord Input hd hi hr hd' he ht => simp [hd, Pc.collecting] at hcol
  | pass hs hs' hp he ht => exact (nosetup hs).elim
  | request hs hs' hp hr hst he ht => exact (nosetup hs).elim
  | joined hs hs' hp t hT hal hT' he => exact (nosetup hs).elim
  | clear hs hs' hp hr he ht => exact (nosetup hs).elim
  | spawn hs hs' hp hr hT hT' he => exact (nosetup hs).elim
  | record Input hd hr hd' he ht => simp [hd, Pc.collecting] at hcol
  | reset now' Input n' hd hd' he ht =>
    obtain ⟨f1, f2, f3⟩ := flags_of_thread ht
    simp only [hd, Pc.collecting, Option.some.injEq, Prod.mk.injEq] at hcol
    obtain ⟨rfl, rfl⟩ := hcol
    refine ⟨observe_driver_reset now c c' _ Input n' hd, ?_⟩
    simp only [hd', Pc.collecting]
    obtain ⟨k1, k2, k3, k4, k5, k6⟩ := hk
    refine ⟨k1, by simp [he, k2], k3, ?_, ?_, ?_⟩
    · intro h; apply k4; simpa [Test.done, he] using h
    · rw [f1, f2]; exact k5
    · rw [f1, f2, f3]; simpa [he] using k6
  | input Input n' hd hd' he ht =>
    obtain ⟨f1, f2, f3⟩ := flags_of_thread ht
    simp only [hd, Pc.collecting, Option.some.injEq, Prod.mk.injEq] at hcol
    obtain ⟨rfl, rfl⟩ := hcol
    refine ⟨observe_driver_other now c c' _ (by simp [hd']), ?_⟩
    simp only [hd', Pc.collecting]
    obtain ⟨k1, k2, k3, k4, k5, k6⟩ := hk
    refine ⟨k1, by simp [he, k2], k3, ?_, ?_, ?_⟩
    · intro h; apply k4; simpa [Test.done, he] using h
    · rw [f1, f2]; exact k5
    · rw [f1, f2, f3]
      intro hr
      rcases k6 hr with ⟨h1, h2, h3, h4, -⟩ | h | ⟨-, -, h3, -⟩
      · left; exact ⟨h1, h2, by simp [he, h3], h4, by simp⟩
      · right; left; exact h
      · cases h3
  | collect n' hd hdone hd' he ht =>
    obtain ⟨f1, f2, f3⟩ := flags_of_thread ht
    simp only [hd, Pc.collecting, Option.some.injEq, Prod.mk.injEq] at hcol
    obtain ⟨rfl, rfl⟩ := hcol
    refine ⟨observe_driver_other now c c' _ (by simp [hd']), ?_⟩
    simp only [hd', Pc.collecting]
    obtain ⟨k1, k2, k3, k4, k5, k6⟩ := hk
    have hq := k4 hdone
    have hi : c.engine.IsTesting = true := by
      rcases hc.testing with h | h
      · exact h
      · simp [hd, Pc.preSession] at h
    refine ⟨k3, hq, by simp [he], ?_, Or.inl ⟨_, hd'⟩, by simp [he, hi], ?_⟩
    · intro r hr
      rw [hd'] at hr
      cases hr
      exact k2
    · rw [f1, f2, f3]
      cases hrun : c.running with
      | false => exact Or.inl rfl
      | true =>
        right
        have hpk : c.parked = true := by
          rcases k5 hq with h | h
          · rw [hrun] at h; cases h
          · exact h
        refine ⟨hpk, ?_⟩
        rcases k6 hrun with ⟨-, -, -, h4, -⟩ | h | ⟨-, h2, -, h4⟩
        · rw [hq] at h4; cases h4
        · exact Or.inl h
        · exact Or.inr ⟨by simp [he, h2], by simp [he, h4 hpk]⟩

/-! ## After a session -/

theorem collected_subject {σ : Type} {c c' : Config σ} (now : Int) (produced : Nat)
    (s : Session) (hc : Consistent c) (hk : Collected c s) (h : SubjectMove c c') :
    c' = c ∧ observe (.subject now) c c' ⟨produced, some s⟩ = ⟨produced, some s⟩ := by
  have key : c' = c := by
    have hst := hk.stuck
    cases h with
    | stay h => exact h
    | write line hr hp he hr' hp' hh hd => simp_all
    | read hr hp he hr' hp' hh hd => simp_all
    | park hr hp he hr' hp' hh hd => simp_all
    | finish hr hp he hr' hp' hh hd => simp_all
    | woken hp hs hq he hr' hp' hh hd =>
      have hr := parked_running hp
      rcases hst with h | ⟨-, h | ⟨-, h⟩⟩
      · rw [hr] at h; cases h
      · rw [hc.hook h] at hs; cases hs
      · exact absurd h hq
    | thrown hp hh0 hs he hr' hp' hh hd =>
      have hr := parked_running hp
      rcases hst with h | ⟨-, h | ⟨h, -⟩⟩
      · rw [hr] at h; cases h
      · rw [hh0] at h; cases h
      · rw [hs] at h; cases h
  subst key
  refine ⟨rfl, ?_⟩
  rw [observe_subject_same now _ _ _ rfl]
  simp only [Option.map]
  rw [see_quiet s _ (fun _ => hk.quiet)]

theorem collected_pc {σ : Type} {c : Config σ} {s : Session} (hk : Collected c s) :
    c.driver.setup = false ∧ c.driver.collecting = none
      ∧ ∀ I n, c.driver ≠ .ResetStartTime I n := by
  rcases hk.after with ⟨r, h⟩ | ⟨I, R, h⟩ | h <;> simp [h, Pc.setup, Pc.collecting]

theorem collected_driver {σ : Type} {c c' : Config σ} (now : Int) (produced : Nat)
    (s : Session) (hk : Collected c s) (h : DriverMove c c') :
    observe (.driver now) c c' ⟨produced, some s⟩ = ⟨produced, some s⟩ ∧ Collected c' s := by
  obtain ⟨p1, p2, p3⟩ := collected_pc hk
  have nosetup : c.driver.setup = true → False := by
    intro hs; rw [p1] at hs; cases hs
  cases h with
  | stay h => subst h; exact ⟨observe_driver_other now _ _ _ p3, hk⟩
  | construct now' hd hd' he ht => simp [hd, Pc.setup] at p1
  | refuse Input R hd hi hd' he ht =>
    obtain ⟨f1, f2, f3⟩ := flags_of_thread ht
    refine ⟨observe_driver_other now c c' _ (by simp [hd']), ?_⟩
    obtain ⟨k1, k2, k3, k4, k5, k6, k7⟩ := hk
    exact ⟨k1, k2, by rw [he]; exact k3, by simp [hd'], Or.inr (Or.inr hd'),
      by rw [he]; exact k6, by rw [f1, f2, f3, he]; exact k7⟩
  | enter Input R hd hi hs' hp' he ht => rw [hk.testing] at hi; cases hi
  | enterRecord Input hd hi hr hd' he ht => rw [hk.testing] at hi; cases hi
  | pass hs hs' hp he ht => exact (nosetup hs).elim
  | request hs hs' hp hr hst he ht => exact (nosetup hs).elim
  | joined hs hs' hp t hT hal hT' he => exact (nosetup hs).elim
  | clear hs hs' hp hr he ht => exact (nosetup hs).elim
  | spawn hs hs' hp hr hT hT' he => exact (nosetup hs).elim
  | record Input hd hr hd' he ht => simp [hd, Pc.setup] at p1
  | reset now' Input n hd hd' he ht => exact absurd hd (p3 _ _)
  | input Input n hd hd' he ht => simp [hd, Pc.collecting] at p2
  | collect n hd hdone hd' he ht => simp [hd, Pc.collecting] at p2

/-! ## Every step -/

/-- Every step keeps what holds of a configuration and its observer. -/
theorem watched_step {σ : Type} {S : Subject σ} (l : Label) (c c' : Config σ) (m : Monitor)
    (hw : Watched c m) (h : step S l c = .ok c') : Watched c' (observe l c c' m) := by
  obtain ⟨hc, hw⟩ := hw
  have hc' := consistent_step l c c' hc h
  refine ⟨hc', ?_⟩
  obtain ⟨produced, session⟩ := m
  cases session with
  | none =>
    simp only at hw
    cases l with
    | subject now =>
      have hb := (before_subject hw (subjectStep_move h)).1
      simp only [observe, Option.map]
      exact hb
    | driver now => exact before_driver now ⟨produced, none⟩ hc hw rfl (driverStep_move h)
    | call Input R =>
      simp only [step, pure, Except.pure] at h
      cases h
      simp only [observe]
      rcases callTest_eq c Input R with h | ⟨-, h⟩
      · rw [h]; exact hw
      · rw [h]
        exact ⟨rfl, by simp, hw.queue⟩
  | some s =>
    simp only at hw
    obtain ⟨hn, hw⟩ := hw
    cases hcol : c.driver.collecting with
    | some ni =>
      obtain ⟨n, input⟩ := ni
      simp only [hcol] at hw
      cases l with
      | subject now =>
        have hm := subjectStep_move h
        have hd : c'.driver = c.driver := (subject_frame hm).2.2
        obtain ⟨s', p', e1, e2, e3⟩ := collecting_subject now produced s n input hc hn hw hm
        rw [e1]
        simp only [hd, hcol]
        exact ⟨e2, e3⟩
      | driver now =>
        obtain ⟨e1, e2⟩ := collecting_driver now produced s n input hc hcol hw
          (driverStep_move h)
        rw [e1]
        exact ⟨hn, e2⟩
      | call Input R =>
        simp only [step, pure, Except.pure] at h
        cases h
        simp only [observe]
        have : callTest c Input R = c := by
          unfold callTest
          cases hd : c.driver <;> simp [hd, Pc.collecting] at hcol <;> rfl
        rw [this]
        simp only [hcol]
        exact ⟨hn, hw⟩
    | none =>
      simp only [hcol] at hw
      cases l with
      | subject now =>
        obtain ⟨e1, e2⟩ := collected_subject now produced s hc hw (subjectStep_move h)
        rw [e2, e1]
        simp only [hcol]
        exact ⟨hn, hw⟩
      | driver now =>
        obtain ⟨e1, e2⟩ := collected_driver now produced s hw (driverStep_move h)
        rw [e1]
        simp only [(collected_pc e2).2.1]
        exact ⟨hn, e2⟩
      | call Input R =>
        simp only [step, pure, Except.pure] at h
        cases h
        simp only [observe]
        rcases callTest_eq c Input R with h | ⟨-, h⟩
        · rw [h]; simp only [hcol]; exact ⟨hn, hw⟩
        · rw [h]
          simp only [Pc.collecting]
          obtain ⟨k1, k2, k3, k4, k5, k6, k7⟩ := hw
          exact ⟨hn, ⟨k1, k2, k3, by simp, Or.inr (Or.inl ⟨_, _, rfl⟩), k6, k7⟩⟩

theorem runObserved_cons {σ : Type} {S : Subject σ} {l : Label} {ls : List Label}
    {cm cm' : Config σ × Monitor} (h : runObserved S (l :: ls) cm = .ok cm') :
    ∃ c1, step S l cm.1 = .ok c1 ∧ runObserved S ls (c1, observe l cm.1 c1 cm.2) = .ok cm' :=
  bind_ok h

/-- What holds of a configuration and its observer holds at the end of every execution. -/
theorem watched_run {σ : Type} {S : Subject σ} {ls : List Label} {cm cm' : Config σ × Monitor}
    (h : runObserved S ls cm = .ok cm') (hw : Watched cm.1 cm.2) : Watched cm'.1 cm'.2 := by
  induction ls generalizing cm with
  | nil => cases h; exact hw
  | cons l ls ih =>
    obtain ⟨c1, h1, h2⟩ := runObserved_cons h
    exact ih h2 (watched_step l cm.1 c1 cm.2 hw h1)

/-- The observer does not change the execution. -/
theorem runObserved_run {σ : Type} {S : Subject σ} {ls : List Label}
    {cm cm' : Config σ × Monitor} (h : runObserved S ls cm = .ok cm') :
    run S ls cm.1 = .ok cm'.1 := by
  induction ls generalizing cm with
  | nil => cases h; rfl
  | cons l ls ih =>
    obtain ⟨c1, h1, h2⟩ := runObserved_cons h
    have := ih h2
    simp only [run, h1, bind, Except.bind]
    exact this

theorem watched_constructed {σ : Type} (object : σ) :
    Watched (Config.constructed object) Monitor.start :=
  ⟨consistent_constructed object, ⟨rfl, by simp [Config.constructed], by
    simp [Config.parked, Config.constructed]⟩⟩

/-! ## The result of a session -/

/-- C3: in every execution from the constructor, for every subject and every schedule, once
`Test` has returned, its result is, in the order of production, exactly the lines that the
subject appended after `Test` cleared `WriteQueue` and set `c` and before the subject was first
seen waiting to read with `ReadCount` other than `c`, or ended: the lines of the result bear the
numbers `discarded`, `discarded + 1`, ..., so none of the `discarded` lines appended before is
among them, no line was appended later (`late` is empty and the count of all lines appended is
`discarded` plus the length of the result), and `WriteQueue` is empty. -/
theorem session_capture_exact {σ : Type} (S : Subject σ) (object : σ) (sched : List Label)
    (c : Config σ) (m : Monitor) (result : TestResult)
    (hrun : runObserved S sched (Config.constructed object, Monitor.start) = .ok (c, m))
    (hret : c.driver = .returned result) :
    run S sched (Config.constructed object) = .ok c
      ∧ ∃ s, m.session = some s
        ∧ result.Lines = s.appended.map Prod.snd
        ∧ s.appended.map Prod.fst = List.range' s.discarded s.appended.length
        ∧ m.produced = s.discarded + s.appended.length
        ∧ s.late = [] ∧ s.quiet = true
        ∧ c.engine.WriteQueue = [] := by
  refine ⟨runObserved_run hrun, ?_⟩
  have hw := watched_run hrun (watched_constructed object)
  obtain ⟨-, hw⟩ := hw
  simp only at hw
  cases hs : m.session with
  | none =>
    rw [hs] at hw
    exact absurd hret (hw.pending result)
  | some s =>
    rw [hs] at hw
    simp only [hret, Pc.collecting] at hw
    obtain ⟨hn, hk⟩ := hw
    exact ⟨s, rfl, hk.result result hret, hn.serial, hn.total, hk.late, hk.quiet, hk.queue⟩

/-- C3 at `greeter`: the line `"ready"`, written before the session, is discarded, and the
result of `Test("hello", false)` is the one line written in the session, which bears the
number 1. -/
theorem session_capture_exact_witness :
    ∃ c m result, runObserved greeter greeterSchedule (Config.constructed .over, Monitor.start)
          = .ok (c, m)
      ∧ c.driver = .returned result
      ∧ result.Lines.map Line.Content = ["you said: hello\n".toList]
      ∧ m.produced = 2
      ∧ m.session.map (fun s => (s.discarded, s.appended.map Prod.fst)) = some (1, [1])
      ∧ run greeter greeterSchedule (Config.constructed .over) = .ok c := by
  refine ⟨_, _, _, rfl, rfl, by decide, rfl, by decide, ?_⟩
  exact (session_capture_exact greeter .over greeterSchedule _ _ _ rfl rfl).1

/-! ## The newline of a written line -/

theorem foldl_WriteLine (ws : List (Int × Str)) (e : Engine) :
    (ws.foldl (fun e w => WriteLine e w.1 (.string w.2)) e).WriteQueue.map Line.Content
      = e.WriteQueue.map Line.Content ++ ws.map (fun w => w.2 ++ ['\n']) := by
  induction ws generalizing e with
  | nil => simp
  | cons w ws ih => rw [List.foldl_cons, ih]; simp [WriteLine, ToString]

/-- C5, as the code has it: the `Line` that `WriteLine(v)` appends has the content `v` followed
by a newline, with either overload; `GetAllLines` adds a second newline, so for the lines written
by `WriteLine(v1)`, ..., `WriteLine(vn)` it gives `v1 ++ "\n\n" ++ ... ++ vn ++ "\n\n"`; and
for the echo subject `Test("hello", false)` returns a result whose `GetAllLines()` is
`"you said: hello\n\n"`. -/
theorem WriteLine_stores_newline (e : Engine) (now : Int) (v : Str) (ws : List (Int × Str)) :
    (WriteLine e now (.string v)).WriteQueue
        = e.WriteQueue ++ [⟨GetTime e now, v ++ ['\n']⟩]
      ∧ (WriteLineList e now [.string v]).WriteQueue
        = e.WriteQueue ++ [⟨GetTime e now, v ++ ['\n']⟩]
      ∧ TestResult.GetAllLines
          ⟨(ws.foldl (fun e w => WriteLine e w.1 (.string w.2)) Engine.constructed).WriteQueue⟩
        = (ws.map (fun w => w.2 ++ ['\n', '\n'])).flatten
      ∧ (returnedBy (run echo echoSchedule (echoWaiting "hello".toList false))).map
          TestResult.GetAllLines = some "you said: hello\n\n".toList := by
  refine ⟨rfl, rfl, ?_, by decide⟩
  rw [GetAllLines_eq]
  have h := foldl_WriteLine ws Engine.constructed
  have : ∀ ls : List Line,
      (ls.map (fun l => l.Content ++ ['\n'])).flatten
        = ((ls.map Line.Content).map (fun s => s ++ ['\n'])).flatten := by
    intro ls; simp [List.map_map, Function.comp_def]
  rw [this, h]
  simp [Engine.constructed, List.map_map, Function.comp_def]

end TestMachine

end IOUnitTest
